import Mathlib

/-!
Verification of the encryption-at-rest subsystem of the nestjs-telegram-bot
repository (src/service/crypto.service.ts and src/service/message-log.service.ts).

Shallow embedding conventions:
* Bytes are `Nat` values, meaningful when `< 256` (Node `Buffer` contents).
* The AES-256 block permutation and the `scrypt` key-derivation primitive are
  Node library functions, not repository code; they enter as parameters
  (`BlockCipher`, a `scrypt` function argument) constrained by their documented
  contracts.  Everything the repository itself does — CBC chaining, PKCS#7
  padding, hex encoding, the `iv:cipher` colon framing, JSON (de)serialization
  of the message log, the read-modify-write of the store — is embedded
  concretely below.
* Randomness (`crypto.randomBytes`) is an explicit `iv` argument.
* The filesystem is a state `FsState`: the content of `messages.json` (or its
  absence) plus a flag injecting a write failure (EACCES etc.).
* Fallible code returns `Except JsErr`.
-/

/-! ## Hex encoding (Node `Buffer.toString('hex')` / `Buffer.from(s, 'hex')`) -/

/-- Lowercase hex digit for a nibble value (0–15). -/
def hexDigitChar (n : Nat) : Char :=
  if n < 10 then Char.ofNat (48 + n) else Char.ofNat (87 + n)

/-- Two lowercase hex characters for one byte. -/
def byteToHexChars (b : Nat) : List Char :=
  [hexDigitChar (b / 16), hexDigitChar (b % 16)]

/-- Hex characters of a byte list. -/
def bytesToHexChars (bs : List Nat) : List Char :=
  (bs.map byteToHexChars).flatten

/-- Node `buf.toString('hex')`: lowercase hex string of a byte sequence. -/
def bytesToHex (bs : List Nat) : String :=
  ⟨bytesToHexChars bs⟩

/-- Value of a hex digit character, upper or lower case. -/
def hexVal (c : Char) : Option Nat :=
  if 48 ≤ c.toNat ∧ c.toNat ≤ 57 then some (c.toNat - 48)
  else if 97 ≤ c.toNat ∧ c.toNat ≤ 102 then some (c.toNat - 87)
  else if 65 ≤ c.toNat ∧ c.toNat ≤ 70 then some (c.toNat - 55)
  else none

/-- Node `Buffer.from(s, 'hex')`: decodes hex digit pairs, truncating at the
first invalid pair or at a trailing lone character (it never throws). -/
def bufferFromHexChars : List Char → List Nat
  | c1 :: c2 :: rest =>
    match hexVal c1, hexVal c2 with
    | some h, some l => (16 * h + l) :: bufferFromHexChars rest
    | _, _ => []
  | _ => []

/-- Node `Buffer.from(s, 'hex')` on a string. -/
def bufferFromHex (s : String) : List Nat :=
  bufferFromHexChars s.data

/-- Character class of the lowercase hex alphabet `0-9a-f`. -/
def isLowerHex (c : Char) : Bool :=
  (48 ≤ c.toNat ∧ c.toNat ≤ 57) ∨ (97 ≤ c.toNat ∧ c.toNat ≤ 102)

/-! ## String splitting (JS `String.prototype.split` on a single character) -/

/-- JS `s.split(sep)` for a one-character separator: splits on every
occurrence; the empty string yields `[""]`. -/
def splitOnChar (sep : Char) : List Char → List (List Char)
  | [] => [[]]
  | x :: xs =>
    let r := splitOnChar sep xs
    if x = sep then [] :: r
    else
      match r with
      | [] => [[x]]
      | y :: ys => (x :: y) :: ys

/-! ## CBC mode with PKCS#7 padding -/

/-- Bytewise XOR of two equal-length byte lists. -/
def xorBytes (a b : List Nat) : List Nat :=
  List.zipWith (fun x y => x ^^^ y) a b

/-- PKCS#7 padding to a 16-byte block boundary (what `createCipheriv` applies
by default). -/
def padPKCS7 (bs : List Nat) : List Nat :=
  bs ++ List.replicate (16 - bs.length % 16) (16 - bs.length % 16)

/-- PKCS#7 unpadding as OpenSSL validates it: the final byte `p` must satisfy
`1 ≤ p ≤ 16`, and the last `p` bytes must all equal `p`; otherwise the
padding is rejected (a `bad decrypt` error). -/
def unpadPKCS7 (bs : List Nat) : Option (List Nat) :=
  match bs.getLast? with
  | none => none
  | some p =>
    if 1 ≤ p ∧ p ≤ 16 ∧ p ≤ bs.length ∧ (bs.drop (bs.length - p)).all (fun x => x = p)
    then some (bs.take (bs.length - p))
    else none

/-- Chunking into 16-byte blocks, fuelled for structural recursion. -/
def toBlocksAux : Nat → List Nat → List (List Nat)
  | 0, _ => []
  | fuel + 1, bs =>
    if bs.isEmpty then [] else bs.take 16 :: toBlocksAux fuel (bs.drop 16)

/-- Chunk a byte list into 16-byte blocks. -/
def toBlocks (bs : List Nat) : List (List Nat) :=
  toBlocksAux bs.length bs

/-- A well-formed 16-byte block. -/
def ByteBlock (b : List Nat) : Prop :=
  b.length = 16 ∧ ∀ x ∈ b, x < 256

/-- The AES-256 block permutation, a Node library primitive: modelled as a
parameter.  `enc k` and `dec k` act on single 16-byte blocks. -/
structure BlockCipher where
  enc : List Nat → List Nat → List Nat
  dec : List Nat → List Nat → List Nat

/-- Contract of the AES-256 block permutation: on well-formed 16-byte blocks
it stays a well-formed block and `dec k` inverts `enc k`. -/
def BlockCipher.Lawful (C : BlockCipher) : Prop :=
  ∀ k b, ByteBlock b →
    ByteBlock (C.enc k b) ∧ ByteBlock (C.dec k b) ∧ C.dec k (C.enc k b) = b

/-- CBC encryption over a list of 16-byte blocks, chaining from `prev`
(initially the IV). -/
def cbcEncBlocks (C : BlockCipher) (k : List Nat) : List Nat → List (List Nat) → List (List Nat)
  | _, [] => []
  | prev, b :: bs =>
    let c := C.enc k (xorBytes b prev)
    c :: cbcEncBlocks C k c bs

/-- CBC decryption over a list of ciphertext blocks, chaining from `prev`
(initially the IV). -/
def cbcDecBlocks (C : BlockCipher) (k : List Nat) : List Nat → List (List Nat) → List (List Nat)
  | _, [] => []
  | prev, c :: cs =>
    xorBytes (C.dec k c) prev :: cbcDecBlocks C k c cs

/-! ## UTF-8 (Node `Buffer.from(s, 'utf8')` / `buf.toString('utf8')`) -/

/-- UTF-8 encoding of a single Unicode code point. -/
def utf8EncodeChar (c : Nat) : List Nat :=
  if c < 0x80 then [c]
  else if c < 0x800 then [0xC0 + c / 64, 0x80 + c % 64]
  else if c < 0x10000 then
    [0xE0 + c / 4096, 0x80 + (c / 64) % 64, 0x80 + c % 64]
  else
    [0xF0 + c / 262144, 0x80 + (c / 4096) % 64, 0x80 + (c / 64) % 64, 0x80 + c % 64]

/-- UTF-8 bytes of a string (Node `Buffer.from(s, 'utf8')`). -/
def utf8EncodeStr (s : String) : List Nat :=
  (s.data.map (fun c => utf8EncodeChar c.toNat)).flatten

/-- The U+FFFD replacement character. -/
def replChar : Char := Char.ofNat 0xFFFD

/-- UTF-8 decoding, fuelled by the byte count.  Faithful on well-formed input;
ill-formed sequences (overlong forms, surrogates, stray bytes) decode to
U+FFFD, approximating Node's replacement behaviour (the exact number of
replacement characters Node emits per ill-formed sequence is not modelled;
no theorem below decodes ill-formed input). -/
def utf8DecodeAux : Nat → List Nat → List Char
  | 0, _ => []
  | _ + 1, [] => []
  | fuel + 1, b :: rest =>
    if b < 0x80 then Char.ofNat b :: utf8DecodeAux fuel rest
    else if b < 0xC2 then replChar :: utf8DecodeAux fuel rest
    else if b < 0xE0 then
      match rest with
      | b1 :: rest1 =>
        if 0x80 ≤ b1 ∧ b1 < 0xC0 then
          Char.ofNat ((b - 0xC0) * 64 + (b1 - 0x80)) :: utf8DecodeAux fuel rest1
        else replChar :: utf8DecodeAux fuel rest
      | [] => [replChar]
    else if b < 0xF0 then
      match rest with
      | b1 :: b2 :: rest2 =>
        if 0x80 ≤ b1 ∧ b1 < 0xC0 ∧ 0x80 ≤ b2 ∧ b2 < 0xC0 then
          let cp := (b - 0xE0) * 4096 + (b1 - 0x80) * 64 + (b2 - 0x80)
          if 0x800 ≤ cp ∧ (cp < 0xD800 ∨ 0xE000 ≤ cp) then
            Char.ofNat cp :: utf8DecodeAux fuel rest2
          else replChar :: utf8DecodeAux fuel rest
        else replChar :: utf8DecodeAux fuel rest
      | _ => [replChar]
    else if b < 0xF5 then
      match rest with
      | b1 :: b2 :: b3 :: rest3 =>
        if 0x80 ≤ b1 ∧ b1 < 0xC0 ∧ 0x80 ≤ b2 ∧ b2 < 0xC0 ∧ 0x80 ≤ b3 ∧ b3 < 0xC0 then
          let cp := (b - 0xF0) * 262144 + (b1 - 0x80) * 4096 + (b2 - 0x80) * 64 + (b3 - 0x80)
          if 0x10000 ≤ cp ∧ cp < 0x110000 then
            Char.ofNat cp :: utf8DecodeAux fuel rest3
          else replChar :: utf8DecodeAux fuel rest
        else replChar :: utf8DecodeAux fuel rest
      | _ => [replChar]
    else replChar :: utf8DecodeAux fuel rest

/-- Node `buf.toString('utf8')`. -/
def utf8Decode (bs : List Nat) : String :=
  ⟨utf8DecodeAux bs.length bs⟩

/-! ## The crypto service (src/service/crypto.service.ts)

`scrypt` stands for `crypto.scryptSync`, a Node primitive, passed as a
parameter: `scrypt passphrase salt keylen` is its byte result. -/

/-- Error channel of the embedded services.  `formatError` is the service's
own `Error('Invalid encrypted text format')`; the others stand for the
distinct exceptions the Node crypto/JSON/filesystem layers throw. -/
inductive JsErr where
  | formatError
  | invalidKey
  | invalidIV
  | badBlockLength
  | badPadding
  | typeError
  | ioError
deriving DecidableEq, Repr

/-- `CryptoService.getKey`: `crypto.scryptSync(this.encryptionKey, 'salt', 32)`
— key stretching with the fixed hardcoded salt `'salt'` and a 32-byte output. -/
def getKey (scrypt : String → String → Nat → List Nat) (encryptionKey : String) : List Nat :=
  scrypt encryptionKey "salt" 32

/-- `CryptoService.encrypt`: derive the key, AES-256-CBC-encrypt the UTF-8
bytes of `text` under the supplied 16-byte IV (the source draws it from
`crypto.randomBytes(16)`), and frame as `ivHex ++ ":" ++ cipherHex`.
`createCipheriv` throws on a key that is not 32 bytes or an IV that is not
16 bytes; those throws are the two error branches. -/
def encrypt (C : BlockCipher) (scrypt : String → String → Nat → List Nat)
    (encryptionKey : String) (iv : List Nat) (text : String) : Except JsErr String :=
  let key := getKey scrypt encryptionKey
  if key.length ≠ 32 then .error .invalidKey
  else if iv.length ≠ 16 then .error .invalidIV
  else
    .ok (bytesToHex iv ++ ":" ++
      bytesToHex (cbcEncBlocks C key iv (toBlocks (padPKCS7 (utf8EncodeStr text)))).flatten)

/-- `CryptoService.decrypt`.  `text.split(':')` splits on every colon and the
destructuring takes the first two parts; the format check is
`!ivString || !encryptedText || ivString.length !== 32`.  The hex segments
are then decoded with Node's truncating `Buffer.from(-, 'hex')`,
`createDecipheriv` validates key and IV lengths, and CBC decryption with
PKCS#7 validation produces the plaintext bytes, returned as UTF-8 text. -/
def decrypt (C : BlockCipher) (scrypt : String → String → Nat → List Nat)
    (encryptionKey : String) (text : String) : Except JsErr String :=
  let parts := splitOnChar (Char.ofNat 58) text.data
  let ivString := parts.getD 0 []
  let encryptedText := parts.getD 1 []
  if ivString.isEmpty ∨ encryptedText.isEmpty ∨ ivString.length ≠ 32 then
    .error .formatError
  else
    let iv := bufferFromHexChars ivString
    let encrypted := bufferFromHexChars encryptedText
    let key := getKey scrypt encryptionKey
    if key.length ≠ 32 then .error .invalidKey
    else if iv.length ≠ 16 then .error .invalidIV
    else if encrypted.isEmpty ∨ encrypted.length % 16 ≠ 0 then .error .badBlockLength
    else
      match unpadPKCS7 (cbcDecBlocks C key iv (toBlocks encrypted)).flatten with
      | none => .error .badPadding
      | some pt => .ok (utf8Decode pt)

/-! ## JSON values and `JSON.parse`

`JSON.parse` and `JSON.stringify` are JS engine built-ins; they are embedded
as an executable parser/serializer below.  One approximation: JSON numbers
are carried as integers (`ToInteger` truncation of the decimal literal);
no repository data path stores non-integer numbers. -/

mutual

/-- JSON values as produced by `JSON.parse`.  Arrays and objects carry their
own list types so that every recursion over a value is structural. -/
inductive Json where
  | null : Json
  | bool : Bool → Json
  | num : Int → Json
  | str : String → Json
  | arr : JsonArr → Json
  | obj : JsonObj → Json

/-- The elements of a JSON array. -/
inductive JsonArr where
  | nil : JsonArr
  | cons : Json → JsonArr → JsonArr

/-- The members of a JSON object, in source order. -/
inductive JsonObj where
  | nil : JsonObj
  | cons : String → Json → JsonObj → JsonObj

end

/-- JSON whitespace. -/
def isJsonWs (c : Char) : Bool :=
  c.toNat = 32 ∨ c.toNat = 9 ∨ c.toNat = 10 ∨ c.toNat = 13

/-- Skip JSON whitespace. -/
def skipWs : List Char → List Char
  | [] => []
  | c :: cs => if isJsonWs c then skipWs cs else c :: cs

/-- Parse exactly `n` decimal digits. -/
def takeDigitsN : Nat → List Char → Option (Nat × List Char)
  | 0, cs => some (0, cs)
  | n + 1, c :: cs =>
    if c.isDigit then
      match takeDigitsN n cs with
      | some (v, rest) => some ((c.toNat - 48) * 10 ^ n + v, rest)
      | none => none
    else none
  | _ + 1, [] => none

/-- Take a maximal run of decimal digits. -/
def takeDigits : List Char → List Nat × List Char
  | [] => ([], [])
  | c :: cs =>
    if c.isDigit then
      let (ds, rest) := takeDigits cs
      ((c.toNat - 48) :: ds, rest)
    else ([], c :: cs)

/-- Numeric value of a digit list (most significant first). -/
def digitsVal (ds : List Nat) : Nat :=
  ds.foldl (fun acc d => acc * 10 + d) 0

/-- Parse the four hex digits of a `\uXXXX` escape. -/
def hexVal4 (a b c d : Char) : Option Nat :=
  match hexVal a, hexVal b, hexVal c, hexVal d with
  | some x, some y, some z, some w => some (((x * 16 + y) * 16 + z) * 16 + w)
  | _, _, _, _ => none

/-- Parse the body of a JSON string literal after the opening quote, up to and
including the closing quote (fuelled by remaining length).  Escapes are
handled per the JSON grammar; `\uXXXX` surrogate pairs are combined.  A lone
surrogate becomes U+FFFD (a JS string can hold a lone surrogate, a Lean
`Char` cannot; no theorem below exercises lone surrogates). -/
def parseStrBodyAux : Nat → List Char → Option (List Char × List Char)
  | 0, _ => none
  | _ + 1, [] => none
  | fuel + 1, c :: cs =>
    if c.toNat = 34 then some ([], cs)
    else if c.toNat = 92 then
      match cs with
      | [] => none
      | e :: cs1 =>
        if e.toNat = 34 ∨ e.toNat = 92 ∨ e.toNat = 47 then
          match parseStrBodyAux fuel cs1 with
          | some (out, rest) => some (e :: out, rest)
          | none => none
        else if e.toNat = 98 ∨ e.toNat = 102 ∨ e.toNat = 110 ∨ e.toNat = 114 ∨ e.toNat = 116 then
          let v : Nat :=
            if e.toNat = 98 then 8 else if e.toNat = 102 then 12
            else if e.toNat = 110 then 10 else if e.toNat = 114 then 13 else 9
          match parseStrBodyAux fuel cs1 with
          | some (out, rest) => some (Char.ofNat v :: out, rest)
          | none => none
        else if e.toNat = 117 then
          match cs1 with
          | a :: b :: c2 :: d :: cs2 =>
            match hexVal4 a b c2 d with
            | none => none
            | some u =>
              if 0xD800 ≤ u ∧ u < 0xDC00 then
                match cs2 with
                | e2 :: u2 :: a2 :: b2 :: c3 :: d2 :: cs3 =>
                  if e2.toNat = 92 ∧ u2.toNat = 117 then
                    match hexVal4 a2 b2 c3 d2 with
                    | some w =>
                      if 0xDC00 ≤ w ∧ w < 0xE000 then
                        match parseStrBodyAux fuel cs3 with
                        | some (out, rest) =>
                          some (Char.ofNat (0x10000 + (u - 0xD800) * 1024 + (w - 0xDC00)) :: out, rest)
                        | none => none
                      else
                        match parseStrBodyAux fuel cs2 with
                        | some (out, rest) => some (replChar :: out, rest)
                        | none => none
                    | none =>
                      match parseStrBodyAux fuel cs2 with
                      | some (out, rest) => some (replChar :: out, rest)
                      | none => none
                  else
                    match parseStrBodyAux fuel cs2 with
                    | some (out, rest) => some (replChar :: out, rest)
                    | none => none
                | _ =>
                  match parseStrBodyAux fuel cs2 with
                  | some (out, rest) => some (replChar :: out, rest)
                  | none => none
              else if 0xDC00 ≤ u ∧ u < 0xE000 then
                match parseStrBodyAux fuel cs2 with
                | some (out, rest) => some (replChar :: out, rest)
                | none => none
              else
                match parseStrBodyAux fuel cs2 with
                | some (out, rest) => some (Char.ofNat u :: out, rest)
                | none => none
          | _ => none
        else none
    else if c.toNat < 32 then none
    else
      match parseStrBodyAux fuel cs with
      | some (out, rest) => some (c :: out, rest)
      | none => none

/-- Parse a JSON string body, providing the fuel. -/
def parseStrBody (cs : List Char) : Option (List Char × List Char) :=
  parseStrBodyAux cs.length cs

/-- Parse a JSON number starting at the current position; yields its
`ToInteger` truncation (the value `new Date(n)` would clip to). -/
def parseNum (cs : List Char) : Option (Int × List Char) :=
  let (neg, cs0) :=
    match cs with
    | c :: rest => if c.toNat = 45 then (true, rest) else (false, cs)
    | [] => (false, cs)
  match takeDigits cs0 with
  | ([], _) => none
  | (intDs, cs1) =>
    if intDs.length > 1 ∧ intDs.headD 0 = 0 then none
    else
      let dotRes : Option (List Nat × List Char) :=
        match cs1 with
        | c :: rest =>
          if c.toNat = 46 then
            match takeDigits rest with
            | ([], _) => none
            | (ds, r) => some (ds, r)
          else some ([], cs1)
        | [] => some ([], cs1)
      match dotRes with
      | none => none
      | some (fracDs, cs2) =>
        let expPart : Option (Int × List Char) :=
          match cs2 with
          | c :: rest =>
            if c.toNat = 101 ∨ c.toNat = 69 then
              match rest with
              | s :: rest1 =>
                if s.toNat = 43 then
                  match takeDigits rest1 with
                  | ([], _) => none
                  | (ds, r) => some ((digitsVal ds : Int), r)
                else if s.toNat = 45 then
                  match takeDigits rest1 with
                  | ([], _) => none
                  | (ds, r) => some (-(digitsVal ds : Int), r)
                else
                  match takeDigits rest with
                  | ([], _) => none
                  | (ds, r) => some ((digitsVal ds : Int), r)
              | [] => none
            else some (0, cs2)
          | [] => some (0, cs2)
        match expPart with
        | none => none
        | some (e, cs3) =>
          let k := fracDs.length
          let n := digitsVal intDs * 10 ^ k + digitsVal fracDs
          let mag : Nat :=
            if e ≥ (k : Int) then n * 10 ^ (e - k).toNat
            else n / 10 ^ ((k : Int) - e).toNat
          some (if neg then -(mag : Int) else (mag : Int), cs3)

/-- Expect a fixed literal keyword. -/
def expectChars : List Char → List Char → Option (List Char)
  | [], cs => some cs
  | l :: ls, c :: cs => if c = l then expectChars ls cs else none
  | _ :: _, [] => none

mutual

/-- Parse one JSON value (fuelled recursive descent). -/
def parseJsonVal : Nat → List Char → Option (Json × List Char)
  | 0, _ => none
  | fuel + 1, cs =>
    match skipWs cs with
    | [] => none
    | c :: rest =>
      if c.toNat = 110 then
        match expectChars "ull".data rest with
        | some r => some (.null, r)
        | none => none
      else if c.toNat = 116 then
        match expectChars "rue".data rest with
        | some r => some (.bool true, r)
        | none => none
      else if c.toNat = 102 then
        match expectChars "alse".data rest with
        | some r => some (.bool false, r)
        | none => none
      else if c.toNat = 34 then
        match parseStrBody rest with
        | some (out, r) => some (.str ⟨out⟩, r)
        | none => none
      else if c.toNat = 91 then
        match skipWs rest with
        | d :: r1 =>
          if d.toNat = 93 then some (.arr .nil, r1)
          else
            match parseArrElems fuel rest with
            | some (xs, r) => some (.arr xs, r)
            | none => none
        | [] => none
      else if c.toNat = 123 then
        match skipWs rest with
        | d :: r1 =>
          if d.toNat = 125 then some (.obj .nil, r1)
          else
            match parseObjMembers fuel rest with
            | some (fs, r) => some (.obj fs, r)
            | none => none
        | [] => none
      else
        match parseNum (c :: rest) with
        | some (n, r) => some (.num n, r)
        | none => none

/-- Parse the comma-separated elements of a JSON array, then the closing
bracket. -/
def parseArrElems : Nat → List Char → Option (JsonArr × List Char)
  | 0, _ => none
  | fuel + 1, cs =>
    match parseJsonVal fuel cs with
    | none => none
    | some (v, cs1) =>
      match skipWs cs1 with
      | c :: cs2 =>
        if c.toNat = 44 then
          match parseArrElems fuel cs2 with
          | some (vs, r) => some (.cons v vs, r)
          | none => none
        else if c.toNat = 93 then some (.cons v .nil, cs2)
        else none
      | [] => none

/-- Parse the members of a JSON object, then the closing brace. -/
def parseObjMembers : Nat → List Char → Option (JsonObj × List Char)
  | 0, _ => none
  | fuel + 1, cs =>
    match skipWs cs with
    | c :: cs1 =>
      if c.toNat = 34 then
        match parseStrBody cs1 with
        | none => none
        | some (key, cs2) =>
          match skipWs cs2 with
          | d :: cs3 =>
            if d.toNat = 58 then
              match parseJsonVal fuel cs3 with
              | none => none
              | some (v, cs4) =>
                match skipWs cs4 with
                | e :: cs5 =>
                  if e.toNat = 44 then
                    match parseObjMembers fuel cs5 with
                    | some (fs, r) => some (.cons ⟨key⟩ v fs, r)
                    | none => none
                  else if e.toNat = 125 then some (.cons ⟨key⟩ v .nil, cs5)
                  else none
                | [] => none
            else none
          | [] => none
      else none
    | [] => none

end

/-- `JSON.parse`: `none` models a thrown `SyntaxError`. -/
def parseJson (s : String) : Option Json :=
  match parseJsonVal (s.data.length + 1) s.data with
  | some (v, rest) => if (skipWs rest).isEmpty then some v else none
  | none => none

/-! ## `JSON.stringify(value, null, 2)` -/

/-- Escape one character per the JSON string grammar, as `JSON.stringify`
does. -/
def escapeJsonChar (c : Char) : List Char :=
  if c.toNat = 34 then [Char.ofNat 92, Char.ofNat 34]
  else if c.toNat = 92 then [Char.ofNat 92, Char.ofNat 92]
  else if c.toNat = 8 then [Char.ofNat 92, Char.ofNat 98]
  else if c.toNat = 9 then [Char.ofNat 92, Char.ofNat 116]
  else if c.toNat = 10 then [Char.ofNat 92, Char.ofNat 110]
  else if c.toNat = 12 then [Char.ofNat 92, Char.ofNat 102]
  else if c.toNat = 13 then [Char.ofNat 92, Char.ofNat 114]
  else if c.toNat < 32 then
    [Char.ofNat 92, Char.ofNat 117, Char.ofNat 48, Char.ofNat 48,
      hexDigitChar (c.toNat / 16), hexDigitChar (c.toNat % 16)]
  else [c]

/-- Quote and escape a string as a JSON string literal. -/
def quoteJson (s : String) : List Char :=
  Char.ofNat 34 :: (s.data.map escapeJsonChar).flatten ++ [Char.ofNat 34]

/-- A run of spaces. -/
def spacesChars (n : Nat) : List Char :=
  List.replicate n (Char.ofNat 32)

mutual

/-- Render a JSON value the way `JSON.stringify(v, null, 2)` lays it out:
two-space indentation, newline-separated elements, `"key": value` members. -/
def jsonRenderVal : Nat → Json → List Char
  | _, .null => "null".data
  | _, .bool true => "true".data
  | _, .bool false => "false".data
  | _, .num n => (toString n).data
  | _, .str s => quoteJson s
  | _, .arr .nil => [Char.ofNat 91, Char.ofNat 93]
  | ind, .arr (.cons x xs) =>
    Char.ofNat 91 :: Char.ofNat 10 ::
      (List.intercalate [Char.ofNat 44, Char.ofNat 10]
        (jsonRenderItems (ind + 2) (.cons x xs))) ++
      Char.ofNat 10 :: (spacesChars ind ++ [Char.ofNat 93])
  | _, .obj .nil => [Char.ofNat 123, Char.ofNat 125]
  | ind, .obj (.cons k v fs) =>
    Char.ofNat 123 :: Char.ofNat 10 ::
      (List.intercalate [Char.ofNat 44, Char.ofNat 10]
        (jsonRenderMembers (ind + 2) (.cons k v fs))) ++
      Char.ofNat 10 :: (spacesChars ind ++ [Char.ofNat 125])

/-- Render each array element, indented. -/
def jsonRenderItems : Nat → JsonArr → List (List Char)
  | _, .nil => []
  | ind, .cons x xs => (spacesChars ind ++ jsonRenderVal ind x) :: jsonRenderItems ind xs

/-- Render each object member as `"key": value`, indented. -/
def jsonRenderMembers : Nat → JsonObj → List (List Char)
  | _, .nil => []
  | ind, .cons k v fs =>
    (spacesChars ind ++ quoteJson k ++
      (Char.ofNat 58 :: Char.ofNat 32 :: jsonRenderVal ind v)) :: jsonRenderMembers ind fs

end

/-- `JSON.stringify(j, null, 2)`. -/
def jsonStringify2 (j : Json) : String :=
  ⟨jsonRenderVal 0 j⟩

/-! ## JS `Date`: epoch milliseconds, `toISOString`, ISO parsing

A JS `Date` value is its epoch-milliseconds number; an invalid date (NaN
time value) is `none` in `Option Int`. -/

/-- Decimal digit character of `n % 10`. -/
def digitCharOf (n : Nat) : Char := Char.ofNat (48 + n % 10)

/-- Two-digit zero-padded decimal. -/
def pad2 (n : Nat) : List Char := [digitCharOf (n / 10), digitCharOf n]

/-- Three-digit zero-padded decimal. -/
def pad3 (n : Nat) : List Char :=
  [digitCharOf (n / 100), digitCharOf (n / 10), digitCharOf n]

/-- Four-digit zero-padded decimal. -/
def pad4 (n : Nat) : List Char :=
  [digitCharOf (n / 1000), digitCharOf (n / 100), digitCharOf (n / 10), digitCharOf n]

/-- Six-digit zero-padded decimal (expanded-year format). -/
def pad6 (n : Nat) : List Char :=
  [digitCharOf (n / 100000), digitCharOf (n / 10000), digitCharOf (n / 1000),
    digitCharOf (n / 100), digitCharOf (n / 10), digitCharOf n]

/-- Proleptic-Gregorian civil date (year, month, day) of a day count from
1970-01-01 (Howard Hinnant's `civil_from_days` algorithm). -/
def civilFromDays (day : Int) : Int × Nat × Nat :=
  let z := day + 719468
  let era := z.fdiv 146097
  let doe := (z - era * 146097).toNat
  let yoe := (doe - doe / 1460 + doe / 36524 - doe / 146096) / 365
  let doy := doe - (365 * yoe + yoe / 4 - yoe / 100)
  let mp := (5 * doy + 2) / 153
  let d := doy - (153 * mp + 2) / 5 + 1
  let m := if mp < 10 then mp + 3 else mp - 9
  (era * 400 + yoe + (if m ≤ 2 then 1 else 0), m, d)

/-- Day count from 1970-01-01 of a civil date (Hinnant's `days_from_civil`). -/
def daysFromCivil (y : Int) (m d : Nat) : Int :=
  let y1 := y - (if m ≤ 2 then 1 else 0)
  let era := y1.fdiv 400
  let yoe := (y1 - era * 400).toNat
  let mp := if 2 < m then m - 3 else m + 9
  let doy := (153 * mp + 2) / 5 + d - 1
  let doe := yoe * 365 + yoe / 4 - yoe / 100 + doy
  era * 146097 + (doe : Int) - 719468

/-- `Date.prototype.toISOString` of an epoch-milliseconds value:
`YYYY-MM-DDTHH:mm:ss.sssZ`, with the ECMAScript expanded six-digit year
outside 0000–9999. -/
def millisToISO (ms : Int) : String :=
  let msPart := (ms.fmod 1000).toNat
  let sec := ms.fdiv 1000
  let sod := (sec.fmod 86400).toNat
  let day := sec.fdiv 86400
  let c := civilFromDays day
  let y := c.1
  let mo := c.2.1
  let d := c.2.2
  let hh := sod / 3600
  let mi := sod / 60 % 60
  let ss := sod % 60
  let yearChars :=
    if 0 ≤ y ∧ y ≤ 9999 then pad4 y.toNat
    else if 9999 < y then Char.ofNat 43 :: pad6 y.toNat
    else Char.ofNat 45 :: pad6 (-y).toNat
  ⟨yearChars ++ Char.ofNat 45 :: pad2 mo ++ Char.ofNat 45 :: pad2 d ++
    Char.ofNat 84 :: pad2 hh ++ Char.ofNat 58 :: pad2 mi ++ Char.ofNat 58 :: pad2 ss ++
    Char.ofNat 46 :: pad3 msPart ++ [Char.ofNat 90]⟩

/-- Leap year in the proleptic Gregorian calendar. -/
def isLeapYear (y : Int) : Bool :=
  (y.emod 4 = 0 ∧ y.emod 100 ≠ 0) ∨ y.emod 400 = 0

/-- Number of days in a month. -/
def daysInMonth (y : Int) (m : Nat) : Nat :=
  if m = 1 ∨ m = 3 ∨ m = 5 ∨ m = 7 ∨ m = 8 ∨ m = 10 ∨ m = 12 then 31
  else if m = 2 then (if isLeapYear y then 29 else 28)
  else 30

/-- Expect one character with the given code. -/
def expectChar (n : Nat) : List Char → Option (List Char)
  | c :: cs => if c.toNat = n then some cs else none
  | [] => none

/-- ECMAScript `TimeClip`: a time value beyond ±8.64e15 ms is NaN (an invalid
date). -/
def jsClipDate (n : Int) : Option Int :=
  if n.natAbs ≤ 8640000000000000 then some n else none

/-- Parse the year field of an ISO date string: four digits, or a signed
six-digit expanded year. -/
def isoParseYear : List Char → Option (Int × List Char)
  | [] => none
  | c :: rest =>
    if c.toNat = 43 then (takeDigitsN 6 rest).map (fun p => ((p.1 : Int), p.2))
    else if c.toNat = 45 then (takeDigitsN 6 rest).map (fun p => (-(p.1 : Int), p.2))
    else (takeDigitsN 4 (c :: rest)).map (fun p => ((p.1 : Int), p.2))

/-- Expect a separator with the given character code, then two digits. -/
def isoParseSep2 (sepCode : Nat) (cs : List Char) : Option (Nat × List Char) :=
  match expectChar sepCode cs with
  | none => none
  | some r => takeDigitsN 2 r

/-- Parsing of a date string by the `Date` constructor, restricted to the
ECMAScript date-time interchange format `YYYY-MM-DDTHH:mm:ss.sssZ` that
`toISOString` emits (with the optional signed six-digit expanded year).
The constructor's other accepted layouts (date-only forms, offsets,
implementation-specific formats) are not modelled; no repository data path
produces them.  `none` is an invalid date. -/
def isoParse (s : String) : Option Int :=
  match isoParseYear s.data with
  | none => none
  | some (y, r1) =>
    match isoParseSep2 45 r1 with
    | none => none
    | some (mo, r3) =>
      match isoParseSep2 45 r3 with
      | none => none
      | some (d, r5) =>
        match isoParseSep2 84 r5 with
        | none => none
        | some (hh, r7) =>
          match isoParseSep2 58 r7 with
          | none => none
          | some (mi, r9) =>
            match isoParseSep2 58 r9 with
            | none => none
            | some (ss, r11) =>
              match expectChar 46 r11 with
              | none => none
              | some r12 =>
                match takeDigitsN 3 r12 with
                | none => none
                | some (mmm, r13) =>
                  match expectChar 90 r13 with
                  | none => none
                  | some r14 =>
                    if r14.isEmpty ∧ 1 ≤ mo ∧ mo ≤ 12 ∧ 1 ≤ d ∧ d ≤ daysInMonth y mo ∧
                        hh ≤ 23 ∧ mi ≤ 59 ∧ ss ≤ 59 then
                      jsClipDate ((daysFromCivil y mo d * 86400 +
                        ((hh * 3600 + mi * 60 + ss : Nat) : Int)) * 1000 + mmm)
                    else none

/-! ## The message-log service (src/service/message-log.service.ts) -/

/-- The shape of an incoming Telegram message that `appendMessage` consumes:
`date` is epoch seconds, `text` may be absent (`undefined`). -/
structure TgMessage where
  date : Nat
  text : Option String

/-- The in-memory record `readMessages` produces: `date` is a JS `Date` value
(epoch milliseconds; `none` is an Invalid Date) and `message` is whatever
the parsed JSON supplied (`none` is `undefined`). -/
structure JsRecord where
  date : Option Int
  message : Option Json

/-- Filesystem state: the content of `messages.json` (`none` when absent)
plus a flag injecting an I/O failure on write. -/
structure FsState where
  content : Option String
  writeFails : Bool

/-- JS `x || dflt` on a possibly-undefined string: `undefined` and the empty
string are falsy. -/
def jsOrText : Option String → String → String
  | none, d => d
  | some s, d => if s = "" then d else s

/-- The record `appendMessage` pushes:
`{date: new Date(msg.date * 1000), message: msg.text || 'No text content'}`. -/
def mkRecord (msg : TgMessage) : JsRecord :=
  ⟨some ((msg.date : Int) * 1000), some (.str (jsOrText msg.text "No text content"))⟩

/-- Last binding of a key in a parsed JSON object (`JSON.parse` keeps the
last duplicate). -/
def objGetLast : JsonObj → String → Option Json
  | .nil, _ => none
  | .cons key v tl, k =>
    match objGetLast tl k with
    | some r => some r
    | none => if key = k then some v else none

/-- JS `new Date(x)` for the value of an object field (`none` argument is a
missing field, i.e. `undefined`).  `null` coerces to 0, booleans to 0/1,
numbers are `TimeClip`ped, strings go through date parsing.  Arrays and
nested objects coerce via `toString` and re-parsing; that path is
approximated as an Invalid Date (no repository data path stores them in a
`date` field). -/
def jsDateOfField : Option Json → Option Int
  | none => none
  | some .null => some 0
  | some (.bool b) => some (if b then 1 else 0)
  | some (.num n) => jsClipDate n
  | some (.str s) => isoParse s
  | some (.arr _) => none
  | some (.obj _) => none

/-- One step of `messages.map((msg) => ({date: new Date(msg.date), message:
msg.message}))`.  A `null` element throws a TypeError (property access on
`null`); any other non-object yields `undefined` for both fields. -/
def recOfJson : Json → Except JsErr JsRecord
  | .null => .error .typeError
  | .obj fs => .ok ⟨jsDateOfField (objGetLast fs "date"), objGetLast fs "message"⟩
  | _ => .ok ⟨none, none⟩

/-- Map `recOfJson` over the elements of a parsed array, propagating the
first thrown TypeError. -/
def mapRecords : JsonArr → Except JsErr (List JsRecord)
  | .nil => .ok []
  | .cons x xs =>
    match recOfJson x with
    | .error e => .error e
    | .ok r =>
      match mapRecords xs with
      | .error e => .error e
      | .ok rs => .ok (r :: rs)

/-- `MessageLogService.readEncryptedFile`: read the file, decrypt, and
`JSON.parse`.  Every failure in the `try` block — a missing file (ENOENT),
a decrypt throw, a JSON.parse throw — is caught and becomes `null`
(here `none`). -/
def readEncryptedFile (C : BlockCipher) (scrypt : String → String → Nat → List Nat)
    (encryptionKey : String) (st : FsState) : Option Json :=
  match st.content with
  | none => none
  | some enc =>
    match decrypt C scrypt encryptionKey enc with
    | .error _ => none
    | .ok s => parseJson s

/-- The `messages?.map(...) || []` step of `readMessages` on the value
`readEncryptedFile` returned: a `null` result (absent file, failed decrypt
or parse) and a parsed JSON `null` both degrade to the empty list; a parsed
non-array value has no `.map` method and throws a TypeError. -/
def messagesOfJson : Option Json → Except JsErr (List JsRecord)
  | none => .ok []
  | some .null => .ok []
  | some (.arr xs) => mapRecords xs
  | some _ => .error .typeError

/-- `MessageLogService.readMessages`: decrypt and parse the file, then map
the parsed records. -/
def readMessages (C : BlockCipher) (scrypt : String → String → Nat → List Nat)
    (encryptionKey : String) (st : FsState) : Except JsErr (List JsRecord) :=
  messagesOfJson (readEncryptedFile C scrypt encryptionKey st)

/-- JSON value of a stored record, as `JSON.stringify` sees it: a `Date`
serializes via `toJSON` to its ISO string (or `null` when invalid), and an
`undefined` member is omitted. -/
def recToJson (r : JsRecord) : Json :=
  .obj (.cons "date"
    (match r.date with
     | some m => .str (millisToISO m)
     | none => .null)
    (match r.message with
     | some j => .cons "message" j .nil
     | none => .nil))

/-- JSON array of a record list. -/
def recsToJsonArr : List JsRecord → JsonArr
  | [] => .nil
  | r :: rs => .cons (recToJson r) (recsToJsonArr rs)

/-- `JSON.stringify(messages, null, 2)` on a record list. -/
def stringifyMessages (l : List JsRecord) : String :=
  jsonStringify2 (.arr (recsToJsonArr l))

/-- `MessageLogService.writeEncryptedFile`: serialize, encrypt, write.  Any
error is logged and rethrown; an injected filesystem failure on the write
is `ioError`. -/
def writeEncryptedFile (C : BlockCipher) (scrypt : String → String → Nat → List Nat)
    (encryptionKey : String) (iv : List Nat) (l : List JsRecord) (st : FsState) :
    Except JsErr FsState :=
  match encrypt C scrypt encryptionKey iv (stringifyMessages l) with
  | .error e => .error e
  | .ok blob => if st.writeFails then .error .ioError else .ok ⟨some blob, st.writeFails⟩

/-- The body of `MessageLogService.appendMessage`'s `try` block: read all
records, push the new one at the tail, write the whole log back. -/
def appendMessageBody (C : BlockCipher) (scrypt : String → String → Nat → List Nat)
    (encryptionKey : String) (iv : List Nat) (msg : TgMessage) (st : FsState) :
    Except JsErr FsState :=
  match readMessages C scrypt encryptionKey st with
  | .error e => .error e
  | .ok messages => writeEncryptedFile C scrypt encryptionKey iv (messages ++ [mkRecord msg]) st

/-- `MessageLogService.appendMessage`: the whole body sits in a `try` whose
`catch` only logs, so every error is swallowed and the state is left as it
was; the caller always sees a normal return. -/
def appendMessage (C : BlockCipher) (scrypt : String → String → Nat → List Nat)
    (encryptionKey : String) (iv : List Nat) (msg : TgMessage) (st : FsState) : FsState :=
  match appendMessageBody C scrypt encryptionKey iv msg st with
  | .ok st1 => st1
  | .error _ => st

/-- The serialize-then-reparse composite a stored log goes through between an
append and the next read (encryption aside): stringify the records, parse
them back, and re-map them to records. -/
def reparseMessages (l : List JsRecord) : Except JsErr (List JsRecord) :=
  messagesOfJson (parseJson (stringifyMessages l))

/-- The IV segment of a blob: the first part of the colon split. -/
def ivSegment (s : String) : List Char :=
  (splitOnChar (Char.ofNat 58) s.data).getD 0 []

/-- The ciphertext segment of a blob: the second part of the colon split. -/
def ctSegment (s : String) : List Char :=
  (splitOnChar (Char.ofNat 58) s.data).getD 1 []

deriving instance DecidableEq for Json, JsonArr, JsonObj

deriving instance DecidableEq for JsRecord

deriving instance DecidableEq for FsState

deriving instance DecidableEq for Except

/-! ## Concrete instances used by witnesses

The identity block cipher satisfies the `BlockCipher` contract and lets the
whole pipeline evaluate; the constant-zero scrypt satisfies the scrypt
length contract. -/

/-- A lawful concrete block cipher: the identity permutation on blocks. -/
def idCipher : BlockCipher := ⟨fun _ b => b, fun _ b => b⟩

/-- A concrete stand-in for `crypto.scryptSync` honouring its length
contract. -/
def toyScrypt : String → String → Nat → List Nat := fun _ _ n => List.replicate n 0

/-- A concrete 16-byte IV. -/
def ivA : List Nat := List.replicate 16 7

/-- A second, distinct concrete 16-byte IV. -/
def ivB : List Nat := List.replicate 16 9

/-- A concrete valid blob whose plaintext is `42` (a JSON number, not an
array): produced by the embedded `encrypt` under the identity cipher. -/
def blob42 : String :=
  match encrypt idCipher toyScrypt "pw" ivA "42" with
  | .ok b => b
  | .error _ => ""

/-- A blob whose first segment is 32 characters long but not hex: 32 times
the letter `z`, then a colon, then `ab`. -/
def blobZ : String :=
  ⟨List.replicate 32 (Char.ofNat 122) ++ [Char.ofNat 58, Char.ofNat 97, Char.ofNat 98]⟩

/-- A concrete valid blob for the plaintext `hi` under the first IV. -/
def blobHiA : String :=
  match encrypt idCipher toyScrypt "pw" ivA "hi" with
  | .ok b => b
  | .error _ => ""

/-- A concrete valid blob for the plaintext `hi` under the second IV. -/
def blobHiB : String :=
  match encrypt idCipher toyScrypt "pw" ivB "hi" with
  | .ok b => b
  | .error _ => ""

/-- The blob `encrypt` produces on the success path: hex IV, colon, hex
CBC ciphertext of the padded UTF-8 plaintext. -/
def encBlob (C : BlockCipher) (scrypt : String → String → Nat → List Nat)
    (ek : String) (iv : List Nat) (text : String) : String :=
  bytesToHex iv ++ ":" ++
    bytesToHex (cbcEncBlocks C (getKey scrypt ek) iv
      (toBlocks (padPKCS7 (utf8EncodeStr text)))).flatten

/-! ## Properties of hex encoding -/

theorem hexVal_hexDigitChar : ∀ d : Nat, d < 16 → hexVal (hexDigitChar d) = some d := by decide

theorem hexDigitChar_ne_colon : ∀ d : Nat, d < 16 → hexDigitChar d ≠ Char.ofNat 58 := by decide

theorem isLowerHex_hexDigitChar : ∀ d : Nat, d < 16 → isLowerHex (hexDigitChar d) = true := by
  decide

theorem bytesToHexChars_nil : bytesToHexChars [] = [] := rfl

theorem bytesToHexChars_cons (b : Nat) (tl : List Nat) :
    bytesToHexChars (b :: tl) =
      hexDigitChar (b / 16) :: hexDigitChar (b % 16) :: bytesToHexChars tl := rfl

theorem bufferFromHexChars_encode (bs : List Nat) (h : ∀ b ∈ bs, b < 256) :
    bufferFromHexChars (bytesToHexChars bs) = bs := by
  induction bs with
  | nil => rfl
  | cons b tl ih =>
    have hb : b < 256 := h b (.head _)
    have h1 : b / 16 < 16 := by omega
    have h2 : b % 16 < 16 := by omega
    rw [bytesToHexChars_cons]
    simp only [bufferFromHexChars, hexVal_hexDigitChar _ h1, hexVal_hexDigitChar _ h2]
    rw [ih (fun x hx => h x (.tail _ hx))]
    congr 1
    omega

theorem bytesToHexChars_length (bs : List Nat) : (bytesToHexChars bs).length = 2 * bs.length := by
  induction bs with
  | nil => rfl
  | cons b tl ih => rw [bytesToHexChars_cons]; simp [ih]; omega

theorem mem_bytesToHexChars (bs : List Nat) (h : ∀ b ∈ bs, b < 256) :
    ∀ c ∈ bytesToHexChars bs, isLowerHex c = true ∧ c ≠ Char.ofNat 58 := by
  induction bs with
  | nil => intro c hc; simp [bytesToHexChars_nil] at hc
  | cons b tl ih =>
    intro c hc
    have hb : b < 256 := h b (.head _)
    rw [bytesToHexChars_cons] at hc
    rcases List.mem_cons.1 hc with hc | hc
    case _ => subst hc; exact ⟨isLowerHex_hexDigitChar _ (by omega), hexDigitChar_ne_colon _ (by omega)⟩
    rcases List.mem_cons.1 hc with hc | hc
    case _ => subst hc; exact ⟨isLowerHex_hexDigitChar _ (by omega), hexDigitChar_ne_colon _ (by omega)⟩
    exact ih (fun x hx => h x (.tail _ hx)) c hc

theorem bytesToHexChars_inj (a b : List Nat) (ha : ∀ x ∈ a, x < 256) (hb : ∀ x ∈ b, x < 256)
    (h : bytesToHexChars a = bytesToHexChars b) : a = b := by
  have := bufferFromHexChars_encode a ha
  rw [h, bufferFromHexChars_encode b hb] at this
  exact this.symm

/-! ## Properties of splitting, XOR, padding and chunking -/

theorem splitOnChar_of_forall_ne (sep : Char) (cs : List Char) (h : ∀ c ∈ cs, c ≠ sep) :
    splitOnChar sep cs = [cs] := by
  induction cs with
  | nil => rfl
  | cons x xs ih =>
    have hx : x ≠ sep := h x (.head _)
    have htl := ih (fun c hc => h c (.tail _ hc))
    simp [splitOnChar, hx, htl]

theorem splitOnChar_append_sep (sep : Char) (a b : List Char) (h : ∀ c ∈ a, c ≠ sep) :
    splitOnChar sep (a ++ sep :: b) = a :: splitOnChar sep b := by
  induction a with
  | nil => simp [splitOnChar]
  | cons x xs ih =>
    have hx : x ≠ sep := h x (.head _)
    have htl := ih (fun c hc => h c (.tail _ hc))
    simp [splitOnChar, hx, htl]

theorem splitOnChar_ne_nil (sep : Char) (cs : List Char) : splitOnChar sep cs ≠ [] := by
  induction cs with
  | nil => simp [splitOnChar]
  | cons x xs ih =>
    by_cases hx : x = sep
    · simp [splitOnChar, hx]
    · simp only [splitOnChar, if_neg hx]
      match h : splitOnChar sep xs with
      | [] => exact absurd h ih
      | y :: ys => simp

theorem xorBytes_cancel (a b : List Nat) (h : a.length = b.length) :
    xorBytes (xorBytes a b) b = a := by
  induction a generalizing b with
  | nil =>
    cases b with
    | nil => rfl
    | cons y ys => simp at h
  | cons x xs ih =>
    cases b with
    | nil => simp at h
    | cons y ys =>
      have htl := ih ys (by simpa using h)
      show (x ^^^ y ^^^ y) :: xorBytes (xorBytes xs ys) ys = x :: xs
      rw [Nat.xor_cancel_right, htl]

theorem xorBytes_length (a b : List Nat) : (xorBytes a b).length = min a.length b.length := by
  simp [xorBytes]

theorem xorBytes_lt : ∀ a b : List Nat, (∀ x ∈ a, x < 256) → (∀ x ∈ b, x < 256) →
    ∀ x ∈ xorBytes a b, x < 256 := by
  intro a
  induction a with
  | nil => intro b _ _ x hx; simp [xorBytes] at hx
  | cons y ys ih =>
    intro b ha hb x hx
    cases b with
    | nil => simp [xorBytes] at hx
    | cons z zs =>
      simp only [xorBytes, List.zipWith_cons_cons] at hx
      rcases List.mem_cons.1 hx with hx | hx
      · subst hx
        have h1 : y < 2 ^ 8 := by simpa using ha y (.head _)
        have h2 : z < 2 ^ 8 := by simpa using hb z (.head _)
        simpa using Nat.xor_lt_two_pow h1 h2
      · exact ih zs (fun u hu => ha u (.tail _ hu)) (fun u hu => hb u (.tail _ hu)) x hx

theorem byteBlock_xorBytes (a b : List Nat) (ha : ByteBlock a) (hb : ByteBlock b) :
    ByteBlock (xorBytes a b) := by
  refine ⟨?_, xorBytes_lt a b ha.2 hb.2⟩
  rw [xorBytes_length, ha.1, hb.1]
  simp

theorem padPKCS7_length (bs : List Nat) :
    (padPKCS7 bs).length = 16 * (bs.length / 16 + 1) := by
  simp only [padPKCS7, List.length_append, List.length_replicate]
  omega

theorem padPKCS7_lt (bs : List Nat) (h : ∀ x ∈ bs, x < 256) :
    ∀ x ∈ padPKCS7 bs, x < 256 := by
  intro x hx
  rcases List.mem_append.1 hx with h1 | h2
  · exact h x h1
  · have := List.eq_of_mem_replicate h2
    omega

theorem unpadPKCS7_padPKCS7 (bs : List Nat) : unpadPKCS7 (padPKCS7 bs) = some bs := by
  have hlen : (padPKCS7 bs).length = bs.length + (16 - bs.length % 16) := by
    simp [padPKCS7]
  have hlast : (padPKCS7 bs).getLast? = some (16 - bs.length % 16) := by
    rw [padPKCS7, List.getLast?_append, List.getLast?_replicate, if_neg (by omega),
      Option.or_some]
  have hsub : (padPKCS7 bs).length - (16 - bs.length % 16) = bs.length := by
    rw [hlen]; omega
  have htake : (padPKCS7 bs).take bs.length = bs := by
    rw [padPKCS7]; exact List.take_left _ _
  have hdrop : (padPKCS7 bs).drop bs.length =
      List.replicate (16 - bs.length % 16) (16 - bs.length % 16) := by
    rw [padPKCS7]; exact List.drop_left _ _
  have hcond : 1 ≤ 16 - bs.length % 16 ∧ (16 - bs.length % 16) ≤ 16 ∧
      (16 - bs.length % 16) ≤ (padPKCS7 bs).length ∧
      ((padPKCS7 bs).drop ((padPKCS7 bs).length - (16 - bs.length % 16))).all
        (fun x => x = 16 - bs.length % 16) = true := by
    refine ⟨by omega, by omega, by rw [hlen]; omega, ?_⟩
    rw [hsub, hdrop]
    simp [List.all_eq_true]
  simp only [unpadPKCS7, hlast]
  rw [if_pos hcond, hsub, htake]

theorem toBlocksAux_nil (n : Nat) : toBlocksAux n [] = [] := by
  cases n <;> simp [toBlocksAux]

theorem toBlocksAux_flatten (L : List (List Nat)) : ∀ n : Nat, (∀ b ∈ L, b.length = 16) →
    L.length ≤ n → toBlocksAux n L.flatten = L := by
  induction L with
  | nil => intro n _ _; simpa using toBlocksAux_nil n
  | cons b tl ih =>
    intro n hlen hn
    match n with
    | m + 1 =>
      have hb : b.length = 16 := hlen b (.head _)
      have hne : ((b :: tl).flatten).isEmpty = false := by
        rw [List.flatten_cons]
        cases hbb : b with
        | nil => rw [hbb] at hb; simp at hb
        | cons u us => simp
      rw [List.flatten_cons] at hne ⊢
      simp only [toBlocksAux, hne, Bool.false_eq_true, if_false]
      rw [List.take_left' hb, List.drop_left' hb]
      rw [ih m (fun x hx => hlen x (.tail _ hx)) (by simpa using hn)]

theorem toBlocks_flatten (L : List (List Nat)) (h : ∀ b ∈ L, b.length = 16) :
    toBlocks L.flatten = L := by
  apply toBlocksAux_flatten L _ h
  have : L.flatten.length = 16 * L.length := by
    induction L with
    | nil => simp
    | cons b tl ih =>
      rw [List.flatten_cons, List.length_append, h b (.head _),
        ih (fun x hx => h x (.tail _ hx))]
      · simp [Nat.mul_succ]; omega
  rw [this]; omega

theorem length_flatten_blocks (L : List (List Nat)) (h : ∀ b ∈ L, b.length = 16) :
    L.flatten.length = 16 * L.length := by
  induction L with
  | nil => simp
  | cons b tl ih =>
    rw [List.flatten_cons, List.length_append, h b (.head _),
      ih (fun x hx => h x (.tail _ hx))]
    simp [Nat.mul_succ]; omega

theorem flatten_toBlocksAux : ∀ n : Nat, ∀ bs : List Nat, bs.length ≤ n →
    (toBlocksAux n bs).flatten = bs := by
  intro n
  induction n with
  | zero =>
    intro bs h
    have : bs = [] := List.eq_nil_of_length_eq_zero (by omega)
    subst this; rfl
  | succ m ih =>
    intro bs h
    by_cases hbs : bs.isEmpty
    · rw [List.isEmpty_iff] at hbs
      subst hbs; rfl
    · simp only [toBlocksAux, hbs, Bool.false_eq_true, if_false, List.flatten_cons]
      rw [ih (bs.drop 16) (by rw [List.length_drop]; omega)]
      exact List.take_append_drop 16 bs

theorem toBlocksAux_mem : ∀ n : Nat, ∀ bs : List Nat, bs.length ≤ n → 16 ∣ bs.length →
    (∀ x ∈ bs, x < 256) → ∀ b ∈ toBlocksAux n bs, ByteBlock b := by
  intro n
  induction n with
  | zero => intro bs _ _ _ b hb; simp [toBlocksAux] at hb
  | succ m ih =>
    intro bs hlen hdvd hlt b hb
    by_cases hbs : bs.isEmpty
    · simp [toBlocksAux, hbs] at hb
    · have hpos : 0 < bs.length := by
        rw [List.isEmpty_iff] at hbs
        exact List.length_pos.2 hbs
      have h16 : 16 ≤ bs.length := by
        rcases hdvd with ⟨k, hk⟩
        omega
      simp only [toBlocksAux, hbs, Bool.false_eq_true, if_false] at hb
      rcases List.mem_cons.1 hb with hb | hb
      · subst hb
        constructor
        · rw [List.length_take]; omega
        · intro x hx; exact hlt x (List.mem_of_mem_take hx)
      · refine ih (bs.drop 16) (by rw [List.length_drop]; omega) ?_
          (fun x hx => hlt x (List.mem_of_mem_drop hx)) b hb
        rcases hdvd with ⟨k, hk⟩
        refine ⟨k - 1, ?_⟩
        rw [List.length_drop]
        omega

theorem toBlocks_mem (bs : List Nat) (hdvd : 16 ∣ bs.length) (hlt : ∀ x ∈ bs, x < 256) :
    ∀ b ∈ toBlocks bs, ByteBlock b :=
  toBlocksAux_mem bs.length bs (Nat.le_refl _) hdvd hlt

/-! ## CBC round trip -/

theorem cbcEncBlocks_length (C : BlockCipher) (k : List Nat) :
    ∀ blocks prev, (cbcEncBlocks C k prev blocks).length = blocks.length := by
  intro blocks
  induction blocks with
  | nil => intro prev; rfl
  | cons b tl ih => intro prev; simp [cbcEncBlocks, ih]

theorem cbcEncBlocks_mem (C : BlockCipher) (k : List Nat) (hC : C.Lawful) :
    ∀ blocks prev, ByteBlock prev → (∀ b ∈ blocks, ByteBlock b) →
    ∀ c ∈ cbcEncBlocks C k prev blocks, ByteBlock c := by
  intro blocks
  induction blocks with
  | nil => intro prev _ _ c hc; simp [cbcEncBlocks] at hc
  | cons b tl ih =>
    intro prev hprev hblocks c hc
    have hxor : ByteBlock (xorBytes b prev) :=
      byteBlock_xorBytes _ _ (hblocks b (.head _)) hprev
    have henc : ByteBlock (C.enc k (xorBytes b prev)) := (hC k _ hxor).1
    simp only [cbcEncBlocks] at hc
    rcases List.mem_cons.1 hc with hc | hc
    · subst hc; exact henc
    · exact ih _ henc (fun x hx => hblocks x (.tail _ hx)) c hc

theorem cbcDecBlocks_cbcEncBlocks (C : BlockCipher) (k : List Nat) (hC : C.Lawful) :
    ∀ blocks prev, ByteBlock prev → (∀ b ∈ blocks, ByteBlock b) →
    cbcDecBlocks C k prev (cbcEncBlocks C k prev blocks) = blocks := by
  intro blocks
  induction blocks with
  | nil => intro prev _ _; rfl
  | cons b tl ih =>
    intro prev hprev hblocks
    have hb : ByteBlock b := hblocks b (.head _)
    have hxor : ByteBlock (xorBytes b prev) := byteBlock_xorBytes _ _ hb hprev
    have henc : ByteBlock (C.enc k (xorBytes b prev)) := (hC k _ hxor).1
    simp only [cbcEncBlocks, cbcDecBlocks]
    rw [(hC k _ hxor).2.2]
    rw [xorBytes_cancel _ _ (by rw [hb.1, hprev.1])]
    rw [ih _ henc (fun x hx => hblocks x (.tail _ hx))]

/-! ## UTF-8 round trip -/

theorem utf8DecodeAux_nil : ∀ fuel : Nat, utf8DecodeAux fuel [] = [] := by
  intro fuel; cases fuel <;> rfl

theorem char_toNat_valid (c : Char) :
    c.toNat < 0xD800 ∨ (0xDFFF < c.toNat ∧ c.toNat < 0x110000) := by
  have h := c.valid
  simpa [UInt32.isValidChar, Nat.isValidChar, Char.toNat] using h

theorem utf8EncodeChar_lt (t : Nat) (h : t < 0x110000) : ∀ x ∈ utf8EncodeChar t, x < 256 := by
  intro x hx
  unfold utf8EncodeChar at hx
  split at hx
  · simp at hx; omega
  · split at hx
    · simp at hx
      rcases hx with hx | hx <;> omega
    · split at hx
      · simp at hx
        rcases hx with hx | hx | hx <;> omega
      · simp at hx
        rcases hx with hx | hx | hx | hx <;> omega

theorem length_le_utf8Encode (cs : List Char) :
    cs.length ≤ ((cs.map (fun c => utf8EncodeChar c.toNat)).flatten).length := by
  induction cs with
  | nil => simp
  | cons c tl ih =>
    rw [List.map_cons, List.flatten_cons, List.length_append]
    have hpos : 1 ≤ (utf8EncodeChar c.toNat).length := by
      unfold utf8EncodeChar
      split
      · simp
      · split
        · simp
        · split <;> simp
    simp only [List.length_cons]
    omega

theorem utf8DecodeAux_encode : ∀ cs : List Char, ∀ fuel : Nat, cs.length ≤ fuel →
    utf8DecodeAux fuel ((cs.map (fun c => utf8EncodeChar c.toNat)).flatten) = cs := by
  intro cs
  induction cs with
  | nil => intro fuel _; simpa using utf8DecodeAux_nil fuel
  | cons c tl ih =>
    intro fuel hf
    match fuel with
    | f + 1 =>
      have hv := char_toNat_valid c
      have htl : utf8DecodeAux f ((tl.map (fun c => utf8EncodeChar c.toNat)).flatten) = tl :=
        ih f (by simpa using hf)
      rw [List.map_cons, List.flatten_cons]
      by_cases h1 : c.toNat < 0x80
      · have he : utf8EncodeChar c.toNat = [c.toNat] := by
          simp [utf8EncodeChar, h1]
        rw [he, List.singleton_append]
        simp only [utf8DecodeAux, if_pos h1]
        rw [Char.ofNat_toNat, htl]
      · by_cases h2 : c.toNat < 0x800
        · have he : utf8EncodeChar c.toNat = [0xC0 + c.toNat / 64, 0x80 + c.toNat % 64] := by
            simp [utf8EncodeChar, h1, h2]
          rw [he]
          simp only [List.cons_append, List.nil_append]
          have hb0 : ¬ (0xC0 + c.toNat / 64 < 0x80) := by omega
          have hb1 : ¬ (0xC0 + c.toNat / 64 < 0xC2) := by omega
          have hb2 : 0xC0 + c.toNat / 64 < 0xE0 := by omega
          have hcont : 0x80 ≤ 0x80 + c.toNat % 64 ∧ 0x80 + c.toNat % 64 < 0xC0 := by omega
          simp only [utf8DecodeAux, if_neg hb0, if_neg hb1, if_pos hb2, if_pos hcont]
          have harith : (0xC0 + c.toNat / 64 - 0xC0) * 64 + (0x80 + c.toNat % 64 - 0x80)
              = c.toNat := by omega
          rw [harith, Char.ofNat_toNat, htl]
        · by_cases h3 : c.toNat < 0x10000
          · have he : utf8EncodeChar c.toNat =
                [0xE0 + c.toNat / 4096, 0x80 + (c.toNat / 64) % 64, 0x80 + c.toNat % 64] := by
              simp [utf8EncodeChar, h1, h2, h3]
            rw [he]
            simp only [List.cons_append, List.nil_append]
            have hb0 : ¬ (0xE0 + c.toNat / 4096 < 0x80) := by omega
            have hb1 : ¬ (0xE0 + c.toNat / 4096 < 0xC2) := by omega
            have hb2 : ¬ (0xE0 + c.toNat / 4096 < 0xE0) := by omega
            have hb3 : 0xE0 + c.toNat / 4096 < 0xF0 := by omega
            have hcont : 0x80 ≤ 0x80 + (c.toNat / 64) % 64 ∧ 0x80 + (c.toNat / 64) % 64 < 0xC0 ∧
                0x80 ≤ 0x80 + c.toNat % 64 ∧ 0x80 + c.toNat % 64 < 0xC0 := by omega
            have harith : (0xE0 + c.toNat / 4096 - 0xE0) * 4096 +
                (0x80 + (c.toNat / 64) % 64 - 0x80) * 64 + (0x80 + c.toNat % 64 - 0x80)
                = c.toNat := by omega
            have hguard : 0x800 ≤ (0xE0 + c.toNat / 4096 - 0xE0) * 4096 +
                (0x80 + (c.toNat / 64) % 64 - 0x80) * 64 + (0x80 + c.toNat % 64 - 0x80) ∧
                ((0xE0 + c.toNat / 4096 - 0xE0) * 4096 +
                  (0x80 + (c.toNat / 64) % 64 - 0x80) * 64 + (0x80 + c.toNat % 64 - 0x80)
                    < 0xD800 ∨
                 0xE000 ≤ (0xE0 + c.toNat / 4096 - 0xE0) * 4096 +
                  (0x80 + (c.toNat / 64) % 64 - 0x80) * 64 + (0x80 + c.toNat % 64 - 0x80)) := by
              rw [harith]
              omega
            simp only [utf8DecodeAux, if_neg hb0, if_neg hb1, if_neg hb2, if_pos hb3,
              if_pos hcont, if_pos hguard]
            rw [harith, Char.ofNat_toNat, htl]
          · have h4 : c.toNat < 0x110000 := by omega
            have he : utf8EncodeChar c.toNat =
                [0xF0 + c.toNat / 262144, 0x80 + (c.toNat / 4096) % 64,
                  0x80 + (c.toNat / 64) % 64, 0x80 + c.toNat % 64] := by
              simp [utf8EncodeChar, h1, h2, h3]
            rw [he]
            simp only [List.cons_append, List.nil_append]
            have hb0 : ¬ (0xF0 + c.toNat / 262144 < 0x80) := by omega
            have hb1 : ¬ (0xF0 + c.toNat / 262144 < 0xC2) := by omega
            have hb2 : ¬ (0xF0 + c.toNat / 262144 < 0xE0) := by omega
            have hb3 : ¬ (0xF0 + c.toNat / 262144 < 0xF0) := by omega
            have hb4 : 0xF0 + c.toNat / 262144 < 0xF5 := by omega
            have hcont : 0x80 ≤ 0x80 + (c.toNat / 4096) % 64 ∧
                0x80 + (c.toNat / 4096) % 64 < 0xC0 ∧
                0x80 ≤ 0x80 + (c.toNat / 64) % 64 ∧ 0x80 + (c.toNat / 64) % 64 < 0xC0 ∧
                0x80 ≤ 0x80 + c.toNat % 64 ∧ 0x80 + c.toNat % 64 < 0xC0 := by omega
            have harith : (0xF0 + c.toNat / 262144 - 0xF0) * 262144 +
                (0x80 + (c.toNat / 4096) % 64 - 0x80) * 4096 +
                (0x80 + (c.toNat / 64) % 64 - 0x80) * 64 + (0x80 + c.toNat % 64 - 0x80)
                = c.toNat := by omega
            have hguard : 0x10000 ≤ (0xF0 + c.toNat / 262144 - 0xF0) * 262144 +
                (0x80 + (c.toNat / 4096) % 64 - 0x80) * 4096 +
                (0x80 + (c.toNat / 64) % 64 - 0x80) * 64 + (0x80 + c.toNat % 64 - 0x80) ∧
                (0xF0 + c.toNat / 262144 - 0xF0) * 262144 +
                (0x80 + (c.toNat / 4096) % 64 - 0x80) * 4096 +
                (0x80 + (c.toNat / 64) % 64 - 0x80) * 64 + (0x80 + c.toNat % 64 - 0x80)
                  < 0x110000 := by
              rw [harith]
              omega
            simp only [utf8DecodeAux, if_neg hb0, if_neg hb1, if_neg hb2, if_neg hb3,
              if_pos hb4, if_pos hcont, if_pos hguard]
            rw [harith, Char.ofNat_toNat, htl]

theorem utf8Decode_utf8EncodeStr (s : String) : utf8Decode (utf8EncodeStr s) = s := by
  unfold utf8Decode utf8EncodeStr
  rw [utf8DecodeAux_encode s.data _ (length_le_utf8Encode s.data)]

theorem utf8EncodeStr_lt (s : String) : ∀ x ∈ utf8EncodeStr s, x < 256 := by
  intro x hx
  unfold utf8EncodeStr at hx
  rcases List.mem_flatten.1 hx with ⟨l, hl, hxl⟩
  rcases List.mem_map.1 hl with ⟨c, _, hc⟩
  subst hc
  have hv := char_toNat_valid c
  exact utf8EncodeChar_lt c.toNat (by omega) x hxl

/-! ## The encrypt/decrypt round trip -/

theorem isEmpty_false_of_length_pos {α : Type} (l : List α) (h : 0 < l.length) :
    l.isEmpty = false := by
  cases l with
  | nil => simp at h
  | cons x xs => rfl

theorem decrypt_encrypt (C : BlockCipher) (scrypt : String → String → Nat → List Nat)
    (ek : String) (iv : List Nat) (text blob : String) (hC : C.Lawful)
    (hkey : (getKey scrypt ek).length = 32) (hiv : iv.length = 16)
    (hivb : ∀ x ∈ iv, x < 256)
    (hE : encrypt C scrypt ek iv text = .ok blob) :
    decrypt C scrypt ek blob = .ok text := by
  have hivB : ByteBlock iv := ⟨hiv, hivb⟩
  have hpt256 := utf8EncodeStr_lt text
  have hpad256 := padPKCS7_lt _ hpt256
  have hdvd : 16 ∣ (padPKCS7 (utf8EncodeStr text)).length :=
    ⟨(utf8EncodeStr text).length / 16 + 1, padPKCS7_length _⟩
  have hblocks := toBlocks_mem _ hdvd hpad256
  have hencB := cbcEncBlocks_mem C (getKey scrypt ek) hC
    (toBlocks (padPKCS7 (utf8EncodeStr text))) iv hivB hblocks
  have henclen16 : ∀ b ∈ cbcEncBlocks C (getKey scrypt ek) iv
      (toBlocks (padPKCS7 (utf8EncodeStr text))), b.length = 16 :=
    fun b hb => (hencB b hb).1
  have hct256 : ∀ x ∈ (cbcEncBlocks C (getKey scrypt ek) iv
      (toBlocks (padPKCS7 (utf8EncodeStr text)))).flatten, x < 256 := by
    intro x hx
    rcases List.mem_flatten.1 hx with ⟨l, hl, hxl⟩
    exact (hencB l hl).2 x hxl
  have hflat : (toBlocks (padPKCS7 (utf8EncodeStr text))).flatten
      = padPKCS7 (utf8EncodeStr text) :=
    flatten_toBlocksAux _ _ (Nat.le_refl _)
  have hpadlen := padPKCS7_length (utf8EncodeStr text)
  have hblockslen : 16 * (toBlocks (padPKCS7 (utf8EncodeStr text))).length
      = (padPKCS7 (utf8EncodeStr text)).length := by
    rw [← length_flatten_blocks _ (fun b hb => (hblocks b hb).1), hflat]
  have hctlen : ((cbcEncBlocks C (getKey scrypt ek) iv
      (toBlocks (padPKCS7 (utf8EncodeStr text)))).flatten).length
      = 16 * ((utf8EncodeStr text).length / 16 + 1) := by
    rw [length_flatten_blocks _ henclen16, cbcEncBlocks_length]
    omega
  -- extract the blob layout from the hypothesis
  unfold encrypt at hE
  rw [if_neg (fun h => h hkey), if_neg (fun h => h hiv)] at hE
  have hblob := Except.ok.inj hE
  rw [← hblob]
  have hdata : (bytesToHex iv ++ ":" ++ bytesToHex ((cbcEncBlocks C (getKey scrypt ek) iv
      (toBlocks (padPKCS7 (utf8EncodeStr text)))).flatten)).data
      = bytesToHexChars iv ++ Char.ofNat 58 :: bytesToHexChars ((cbcEncBlocks C
        (getKey scrypt ek) iv (toBlocks (padPKCS7 (utf8EncodeStr text)))).flatten) := by
    rw [String.data_append, String.data_append]
    rw [show (":" : String).data = [Char.ofNat 58] from by decide]
    simp [bytesToHex]
  have hsplit : splitOnChar (Char.ofNat 58) (bytesToHexChars iv ++
      Char.ofNat 58 :: bytesToHexChars ((cbcEncBlocks C (getKey scrypt ek) iv
        (toBlocks (padPKCS7 (utf8EncodeStr text)))).flatten))
      = [bytesToHexChars iv, bytesToHexChars ((cbcEncBlocks C (getKey scrypt ek) iv
        (toBlocks (padPKCS7 (utf8EncodeStr text)))).flatten)] := by
    rw [splitOnChar_append_sep _ _ _ (fun c hc => (mem_bytesToHexChars iv hivb c hc).2)]
    rw [splitOnChar_of_forall_ne _ _ (fun c hc => (mem_bytesToHexChars _ hct256 c hc).2)]
  have hivchars : (bytesToHexChars iv).length = 32 := by
    rw [bytesToHexChars_length, hiv]
  have hivne : (bytesToHexChars iv).isEmpty = false :=
    isEmpty_false_of_length_pos _ (by omega)
  have hctchars : (bytesToHexChars ((cbcEncBlocks C (getKey scrypt ek) iv
      (toBlocks (padPKCS7 (utf8EncodeStr text)))).flatten)).length
      = 2 * (16 * ((utf8EncodeStr text).length / 16 + 1)) := by
    rw [bytesToHexChars_length, hctlen]
  have hctne : (bytesToHexChars ((cbcEncBlocks C (getKey scrypt ek) iv
      (toBlocks (padPKCS7 (utf8EncodeStr text)))).flatten)).isEmpty = false :=
    isEmpty_false_of_length_pos _ (by omega)
  have hctEmpty : ((cbcEncBlocks C (getKey scrypt ek) iv
      (toBlocks (padPKCS7 (utf8EncodeStr text)))).flatten).isEmpty = false :=
    isEmpty_false_of_length_pos _ (by omega)
  simp only [decrypt, hdata, hsplit, List.getD_cons_zero, List.getD_cons_succ]
  rw [if_neg (by simp [hivne, hctne, hivchars])]
  rw [bufferFromHexChars_encode iv hivb, bufferFromHexChars_encode _ hct256]
  rw [if_neg (fun h => h hkey), if_neg (fun h => h hiv)]
  rw [if_neg (by simp [hctEmpty, hctlen])]
  rw [toBlocks_flatten _ henclen16]
  rw [cbcDecBlocks_cbcEncBlocks C _ hC _ _ hivB hblocks]
  rw [hflat, unpadPKCS7_padPKCS7]
  simp [utf8Decode_utf8EncodeStr]

theorem encrypt_ok (C : BlockCipher) (scrypt : String → String → Nat → List Nat)
    (ek : String) (iv : List Nat) (text : String)
    (hkey : (getKey scrypt ek).length = 32) (hiv : iv.length = 16) :
    encrypt C scrypt ek iv text = .ok (encBlob C scrypt ek iv text) := by
  unfold encrypt encBlob
  rw [if_neg (fun h => h hkey), if_neg (fun h => h hiv)]

theorem encBlob_data (C : BlockCipher) (scrypt : String → String → Nat → List Nat)
    (ek : String) (iv : List Nat) (text : String) :
    (encBlob C scrypt ek iv text).data
      = bytesToHexChars iv ++ Char.ofNat 58 :: bytesToHexChars (cbcEncBlocks C
          (getKey scrypt ek) iv (toBlocks (padPKCS7 (utf8EncodeStr text)))).flatten := by
  unfold encBlob
  rw [String.data_append, String.data_append]
  rw [show (":" : String).data = [Char.ofNat 58] from by decide]
  simp [bytesToHex]

theorem ctBytes_lt (C : BlockCipher) (scrypt : String → String → Nat → List Nat)
    (ek : String) (iv : List Nat) (text : String) (hC : C.Lawful)
    (hiv : iv.length = 16) (hivb : ∀ x ∈ iv, x < 256) :
    ∀ x ∈ (cbcEncBlocks C (getKey scrypt ek) iv
      (toBlocks (padPKCS7 (utf8EncodeStr text)))).flatten, x < 256 := by
  intro x hx
  have hpad256 := padPKCS7_lt _ (utf8EncodeStr_lt text)
  have hdvd : 16 ∣ (padPKCS7 (utf8EncodeStr text)).length :=
    ⟨(utf8EncodeStr text).length / 16 + 1, padPKCS7_length _⟩
  have hblocks := toBlocks_mem _ hdvd hpad256
  have hencB := cbcEncBlocks_mem C (getKey scrypt ek) hC
    (toBlocks (padPKCS7 (utf8EncodeStr text))) iv ⟨hiv, hivb⟩ hblocks
  rcases List.mem_flatten.1 hx with ⟨l, hl, hxl⟩
  exact (hencB l hl).2 x hxl

theorem encBlob_split (C : BlockCipher) (scrypt : String → String → Nat → List Nat)
    (ek : String) (iv : List Nat) (text : String) (hC : C.Lawful)
    (hiv : iv.length = 16) (hivb : ∀ x ∈ iv, x < 256) :
    splitOnChar (Char.ofNat 58) (encBlob C scrypt ek iv text).data
      = [bytesToHexChars iv, bytesToHexChars (cbcEncBlocks C (getKey scrypt ek) iv
          (toBlocks (padPKCS7 (utf8EncodeStr text)))).flatten] := by
  rw [encBlob_data]
  rw [splitOnChar_append_sep _ _ _ (fun c hc => (mem_bytesToHexChars iv hivb c hc).2)]
  rw [splitOnChar_of_forall_ne _ _
    (fun c hc => (mem_bytesToHexChars _ (ctBytes_lt C scrypt ek iv text hC hiv hivb) c hc).2)]

theorem ivSegment_encBlob (C : BlockCipher) (scrypt : String → String → Nat → List Nat)
    (ek : String) (iv : List Nat) (text : String) (hC : C.Lawful)
    (hiv : iv.length = 16) (hivb : ∀ x ∈ iv, x < 256) :
    ivSegment (encBlob C scrypt ek iv text) = bytesToHexChars iv := by
  rw [ivSegment, encBlob_split C scrypt ek iv text hC hiv hivb]
  rfl

/-- The identity block cipher satisfies the cipher contract. -/
theorem idCipher_lawful : idCipher.Lawful := by
  intro k b hb
  exact ⟨hb, hb, rfl⟩

/-- The constant scrypt stand-in honours the scryptSync length contract. -/
theorem toyScrypt_length : ∀ p s n, (toyScrypt p s n).length = n := by
  intro p s n
  simp [toyScrypt]

/-! ## Claim theorems -/

/-- C1: for every plaintext string P and every derived key (any passphrase,
scrypt honouring its contract, AES honouring the block-cipher contract) and
any choice of 16-byte IV, decrypting the blob produced by encrypt returns
exactly P. -/
theorem C1_decrypt_encrypt_roundtrip (C : BlockCipher)
    (scrypt : String → String → Nat → List Nat) (ek : String) (iv : List Nat)
    (P blob : String) (hC : C.Lawful) (hkey : (getKey scrypt ek).length = 32)
    (hiv : iv.length = 16) (hivb : ∀ x ∈ iv, x < 256)
    (hE : encrypt C scrypt ek iv P = .ok blob) :
    decrypt C scrypt ek blob = .ok P :=
  decrypt_encrypt C scrypt ek iv P blob hC hkey hiv hivb hE

set_option maxRecDepth 1000000 in
/-- Witness for C1 at a concrete cipher, passphrase, IV and plaintext. -/
theorem C1_witness : decrypt idCipher toyScrypt "pw" blob42 = .ok "42" :=
  C1_decrypt_encrypt_roundtrip idCipher toyScrypt "pw" ivA "42" blob42
    idCipher_lawful (by decide) (by decide) (by decide) (by decide)

/-- C7: key derivation is a pure function of the passphrase applied to the
fixed hardcoded salt `'salt'` with 32-byte output: equal passphrases give
byte-identical keys, every key is exactly 32 bytes, and the empty
passphrase derives a key like any other. -/
theorem C7_key_derivation (scrypt : String → String → Nat → List Nat)
    (hlen : ∀ p s n, (scrypt p s n).length = n) :
    (∀ p : String, getKey scrypt p = scrypt p "salt" 32) ∧
    (∀ p q : String, p = q → getKey scrypt p = getKey scrypt q) ∧
    (∀ p : String, (getKey scrypt p).length = 32) ∧
    (getKey scrypt "").length = 32 :=
  ⟨fun _ => rfl, fun p q h => by rw [h], fun p => hlen p "salt" 32, hlen "" "salt" 32⟩

/-- Witness for C7 at the concrete scrypt stand-in, including the empty
passphrase. -/
theorem C7_witness :
    (getKey toyScrypt "").length = 32 ∧ getKey toyScrypt "abc" = toyScrypt "abc" "salt" 32 := by
  have h := C7_key_derivation toyScrypt toyScrypt_length
  exact ⟨h.2.2.2, h.1 "abc"⟩

/-- C10: the `'No text content'` sentinel is stored both when the incoming
message's text is absent and when it is present but empty, because `||`
treats the empty string as falsy. -/
theorem C10_sentinel (m : TgMessage) (h : m.text = none ∨ m.text = some "") :
    (mkRecord m).message = some (.str "No text content") := by
  rcases h with h | h <;> simp [mkRecord, jsOrText, h]

/-- Witness for C10 on both an absent and an empty text field. -/
theorem C10_witness :
    (mkRecord ⟨5, none⟩).message = some (.str "No text content") ∧
    (mkRecord ⟨5, some ""⟩).message = some (.str "No text content") :=
  ⟨C10_sentinel ⟨5, none⟩ (Or.inl rfl), C10_sentinel ⟨5, some ""⟩ (Or.inr rfl)⟩

/-- C5 (amended): decrypt raises the service's FormatError exactly when the
split on colons yields a missing or empty first or second part, or a first
part whose length is not 32; hex-validity of the 32 characters is not part
of the format check. -/
theorem C5_formatError_iff (C : BlockCipher) (scrypt : String → String → Nat → List Nat)
    (ek text : String) :
    decrypt C scrypt ek text = .error .formatError ↔
      ((splitOnChar (Char.ofNat 58) text.data).getD 0 [] = [] ∨
       (splitOnChar (Char.ofNat 58) text.data).getD 1 [] = [] ∨
       ((splitOnChar (Char.ofNat 58) text.data).getD 0 []).length ≠ 32) := by
  simp only [decrypt]
  split
  case isTrue h =>
    exact iff_of_true rfl (by simpa [List.isEmpty_iff] using h)
  case isFalse h =>
    constructor
    · intro heq
      exfalso
      split at heq
      · simp at heq
      · split at heq
        · simp at heq
        · split at heq
          · simp at heq
          · split at heq
            · simp at heq
            · simp at heq
    · intro hr
      exact absurd (by simpa [List.isEmpty_iff] using hr) h

set_option maxRecDepth 1000000 in
/-- Counterexample to C5 as stated: a blob whose first segment is 32
characters long but contains no hex digit is not rejected with the
FormatError; it fails later, at the IV-length check inside
`createDecipheriv`. -/
theorem C5_counterexample :
    (ivSegment blobZ).length = 32 ∧
    decrypt idCipher toyScrypt "pw" blobZ = .error .invalidIV ∧
    decrypt idCipher toyScrypt "pw" blobZ ≠ .error .formatError := by
  refine ⟨by decide, by decide, by decide⟩

/-- C4 (amended): readAll returns the empty sequence for a missing file, for
any content whose decryption fails, and for decrypted text that fails to
parse as JSON or parses to JSON `null`; but decrypted text that parses to a
non-array JSON value makes readAll throw a TypeError instead of returning
empty. -/
theorem C4_read_degradation (C : BlockCipher) (scrypt : String → String → Nat → List Nat)
    (ek : String) (w : Bool) :
    (readMessages C scrypt ek ⟨none, w⟩ = .ok []) ∧
    (∀ enc e, decrypt C scrypt ek enc = .error e →
      readMessages C scrypt ek ⟨some enc, w⟩ = .ok []) ∧
    (∀ enc s, decrypt C scrypt ek enc = .ok s → parseJson s = none →
      readMessages C scrypt ek ⟨some enc, w⟩ = .ok []) ∧
    (∀ enc s, decrypt C scrypt ek enc = .ok s → parseJson s = some .null →
      readMessages C scrypt ek ⟨some enc, w⟩ = .ok []) ∧
    (∀ enc s j, decrypt C scrypt ek enc = .ok s → parseJson s = some j →
      (∀ xs, j ≠ .arr xs) → j ≠ .null →
      readMessages C scrypt ek ⟨some enc, w⟩ = .error .typeError) := by
  refine ⟨rfl, ?_, ?_, ?_, ?_⟩
  · intro enc e h
    simp [readMessages, readEncryptedFile, h, messagesOfJson]
  · intro enc s h hp
    simp [readMessages, readEncryptedFile, h, hp, messagesOfJson]
  · intro enc s h hp
    simp [readMessages, readEncryptedFile, h, hp, messagesOfJson]
  · intro enc s j h hp harr hnull
    simp only [readMessages, readEncryptedFile, h, hp]
    cases j with
    | null => exact absurd rfl hnull
    | arr xs => exact absurd rfl (harr xs)
    | bool b => rfl
    | num n => rfl
    | str s2 => rfl
    | obj fs => rfl

set_option maxRecDepth 1000000 in
/-- Witness for C4 (amended): a blob whose decryption fails degrades to the
empty log. -/
theorem C4_witness : readMessages idCipher toyScrypt "pw" ⟨some blobZ, false⟩ = .ok [] :=
  (C4_read_degradation idCipher toyScrypt "pw" false).2.1 blobZ .invalidIV (by decide)

set_option maxRecDepth 1000000 in
/-- Counterexample to C4 as stated: a file whose content decrypts to the
JSON text `42` — valid JSON, but not the expected array — makes readAll
throw a TypeError (`.map` is not a function on a number) instead of
returning the empty sequence. -/
theorem C4_counterexample :
    decrypt idCipher toyScrypt "pw" blob42 = .ok "42" ∧
    readMessages idCipher toyScrypt "pw" ⟨some blob42, false⟩ = .error .typeError ∧
    readMessages idCipher toyScrypt "pw" ⟨some blob42, false⟩ ≠ .ok [] := by
  refine ⟨by decide, by decide, by decide⟩

/-- C6 (amended): when the write fails, the error propagates from
writeEncryptedFile into appendMessage's catch — the body of the append
rejects with the I/O error — but appendMessage itself swallows it and
returns normally with the state unchanged; and when the prior content is
undecryptable but the write succeeds, the append reads an empty prior log
and overwrites the file with a fresh one-record log. -/
theorem C6_append_swallows (C : BlockCipher) (scrypt : String → String → Nat → List Nat)
    (ek : String) (iv : List Nat) (msg : TgMessage) (st : FsState) (L : List JsRecord)
    (hkey : (getKey scrypt ek).length = 32) (hiv : iv.length = 16)
    (hw : st.writeFails = true) (hL : readMessages C scrypt ek st = .ok L) :
    (appendMessageBody C scrypt ek iv msg st = .error .ioError ∧
     appendMessage C scrypt ek iv msg st = st) ∧
    (∀ enc e, decrypt C scrypt ek enc = .error e →
      appendMessage C scrypt ek iv msg ⟨some enc, false⟩ =
        ⟨some (encBlob C scrypt ek iv (stringifyMessages [mkRecord msg])), false⟩) := by
  constructor
  · have hbody : appendMessageBody C scrypt ek iv msg st = .error .ioError := by
      simp [appendMessageBody, hL, writeEncryptedFile,
        encrypt_ok C scrypt ek iv _ hkey hiv, hw]
    exact ⟨hbody, by simp [appendMessage, hbody]⟩
  · intro enc e h
    have hread : readMessages C scrypt ek ⟨some enc, false⟩ = .ok [] := by
      simp [readMessages, readEncryptedFile, h, messagesOfJson]
    simp [appendMessage, appendMessageBody, hread, writeEncryptedFile,
      encrypt_ok C scrypt ek iv _ hkey hiv]

set_option maxRecDepth 1000000 in
/-- Witness for C6 (amended) on a concrete failing write. -/
theorem C6_witness :
    appendMessageBody idCipher toyScrypt "pw" ivA ⟨1, some "x"⟩ ⟨none, true⟩ = .error .ioError ∧
    appendMessage idCipher toyScrypt "pw" ivA ⟨1, some "x"⟩ ⟨none, true⟩ = ⟨none, true⟩ :=
  (C6_append_swallows idCipher toyScrypt "pw" ivA ⟨1, some "x"⟩ ⟨none, true⟩ []
    (by decide) (by decide) rfl rfl).1

set_option maxRecDepth 1000000 in
/-- Counterexample to C6 as stated: with a failing write, append resolves
normally — the caller sees no error — even though the write path rejected;
the append is silently dropped (the state is unchanged). -/
theorem C6_counterexample :
    appendMessage idCipher toyScrypt "pw" ivA ⟨1, some "x"⟩ ⟨none, true⟩ = ⟨none, true⟩ ∧
    appendMessageBody idCipher toyScrypt "pw" ivA ⟨1, some "x"⟩ ⟨none, true⟩
      = .error .ioError := by
  refine ⟨by decide, by decide⟩

theorem ctFlattenLength (C : BlockCipher) (scrypt : String → String → Nat → List Nat)
    (ek : String) (iv : List Nat) (text : String) (hC : C.Lawful)
    (hiv : iv.length = 16) (hivb : ∀ x ∈ iv, x < 256) :
    ((cbcEncBlocks C (getKey scrypt ek) iv
      (toBlocks (padPKCS7 (utf8EncodeStr text)))).flatten).length
      = 16 * ((utf8EncodeStr text).length / 16 + 1) := by
  have hpad256 := padPKCS7_lt _ (utf8EncodeStr_lt text)
  have hdvd : 16 ∣ (padPKCS7 (utf8EncodeStr text)).length :=
    ⟨(utf8EncodeStr text).length / 16 + 1, padPKCS7_length _⟩
  have hblocks := toBlocks_mem _ hdvd hpad256
  have hencB := cbcEncBlocks_mem C (getKey scrypt ek) hC
    (toBlocks (padPKCS7 (utf8EncodeStr text))) iv ⟨hiv, hivb⟩ hblocks
  have hflat : (toBlocks (padPKCS7 (utf8EncodeStr text))).flatten
      = padPKCS7 (utf8EncodeStr text) :=
    flatten_toBlocksAux _ _ (Nat.le_refl _)
  have hblockslen : 16 * (toBlocks (padPKCS7 (utf8EncodeStr text))).length
      = (padPKCS7 (utf8EncodeStr text)).length := by
    rw [← length_flatten_blocks _ (fun b hb => (hblocks b hb).1), hflat]
  rw [length_flatten_blocks _ (fun b hb => (hencB b hb).1), cbcEncBlocks_length]
  have := padPKCS7_length (utf8EncodeStr text)
  omega

set_option maxRecDepth 1000000 in
/-- C2: starting from an absent log, appending the raw record with epoch
1700000000 and text `hello` and then reading back returns exactly one
record whose text is `hello` and whose timestamp is 1700000000000 epoch
milliseconds — the instant whose ISO rendering is
`2023-11-14T22:13:20.000Z` — surviving the
serialize-encrypt-decrypt-parse round trip. -/
theorem C2_append_then_read (C : BlockCipher) (scrypt : String → String → Nat → List Nat)
    (ek : String) (iv : List Nat) (hC : C.Lawful) (hkey : (getKey scrypt ek).length = 32)
    (hiv : iv.length = 16) (hivb : ∀ x ∈ iv, x < 256) :
    readMessages C scrypt ek
      (appendMessage C scrypt ek iv ⟨1700000000, some "hello"⟩ ⟨none, false⟩)
      = .ok [⟨some 1700000000000, some (.str "hello")⟩] ∧
    millisToISO 1700000000000 = "2023-11-14T22:13:20.000Z" := by
  constructor
  · have h0 : readMessages C scrypt ek ⟨none, false⟩ = .ok [] := rfl
    have hE := encrypt_ok C scrypt ek iv
      (stringifyMessages [mkRecord ⟨1700000000, some "hello"⟩]) hkey hiv
    have happ : appendMessage C scrypt ek iv ⟨1700000000, some "hello"⟩ ⟨none, false⟩
        = ⟨some (encBlob C scrypt ek iv
            (stringifyMessages [mkRecord ⟨1700000000, some "hello"⟩])), false⟩ := by
      simp [appendMessage, appendMessageBody, h0, writeEncryptedFile, hE]
    rw [happ]
    have hdec := decrypt_encrypt C scrypt ek iv _ _ hC hkey hiv hivb hE
    simp only [readMessages, readEncryptedFile, hdec]
    decide
  · decide

set_option maxRecDepth 1000000 in
/-- Witness for C2 at the concrete cipher, passphrase and IV. -/
theorem C2_witness :
    readMessages idCipher toyScrypt "pw"
      (appendMessage idCipher toyScrypt "pw" ivA ⟨1700000000, some "hello"⟩ ⟨none, false⟩)
      = .ok [⟨some 1700000000000, some (.str "hello")⟩] ∧
    millisToISO 1700000000000 = "2023-11-14T22:13:20.000Z" :=
  C2_append_then_read idCipher toyScrypt "pw" ivA idCipher_lawful
    (by decide) (by decide) (by decide)

/-- C3: from any prior state whose readAll succeeds with records L, a
sequential append of A then B followed by readAll yields L, in order,
followed by A's record and then B's record, provided the serialize/parse
layer round-trips the two intermediate logs (which the JSON and date
built-ins guarantee for well-formed records). -/
theorem C3_order_preservation (C : BlockCipher) (scrypt : String → String → Nat → List Nat)
    (ek : String) (iv1 iv2 : List Nat) (st : FsState) (L : List JsRecord) (a b : TgMessage)
    (hC : C.Lawful) (hkey : (getKey scrypt ek).length = 32)
    (hiv1 : iv1.length = 16) (hivb1 : ∀ x ∈ iv1, x < 256)
    (hiv2 : iv2.length = 16) (hivb2 : ∀ x ∈ iv2, x < 256)
    (hw : st.writeFails = false)
    (hL : readMessages C scrypt ek st = .ok L)
    (hA : reparseMessages (L ++ [mkRecord a]) = .ok (L ++ [mkRecord a]))
    (hB : reparseMessages (L ++ [mkRecord a, mkRecord b])
      = .ok (L ++ [mkRecord a, mkRecord b])) :
    readMessages C scrypt ek
      (appendMessage C scrypt ek iv2 b (appendMessage C scrypt ek iv1 a st))
      = .ok (L ++ [mkRecord a, mkRecord b]) := by
  have hE1 := encrypt_ok C scrypt ek iv1 (stringifyMessages (L ++ [mkRecord a])) hkey hiv1
  have happ1 : appendMessage C scrypt ek iv1 a st
      = ⟨some (encBlob C scrypt ek iv1 (stringifyMessages (L ++ [mkRecord a]))), false⟩ := by
    simp [appendMessage, appendMessageBody, hL, writeEncryptedFile, hE1, hw]
  have hdec1 := decrypt_encrypt C scrypt ek iv1 _ _ hC hkey hiv1 hivb1 hE1
  have hread1 : readMessages C scrypt ek
      ⟨some (encBlob C scrypt ek iv1 (stringifyMessages (L ++ [mkRecord a]))), false⟩
      = .ok (L ++ [mkRecord a]) := by
    simp only [readMessages, readEncryptedFile, hdec1]
    simpa [reparseMessages] using hA
  have hE2 := encrypt_ok C scrypt ek iv2
    (stringifyMessages (L ++ [mkRecord a, mkRecord b])) hkey hiv2
  have happ2 : appendMessage C scrypt ek iv2 b
      ⟨some (encBlob C scrypt ek iv1 (stringifyMessages (L ++ [mkRecord a]))), false⟩
      = ⟨some (encBlob C scrypt ek iv2
          (stringifyMessages (L ++ [mkRecord a, mkRecord b]))), false⟩ := by
    simp [appendMessage, appendMessageBody, hread1, writeEncryptedFile, hE2]
  have hdec2 := decrypt_encrypt C scrypt ek iv2 _ _ hC hkey hiv2 hivb2 hE2
  rw [happ1, happ2]
  simp only [readMessages, readEncryptedFile, hdec2]
  simpa [reparseMessages] using hB

set_option maxRecDepth 1000000 in
/-- Witness for C3 from the empty state with two concrete records. -/
theorem C3_witness :
    readMessages idCipher toyScrypt "pw"
      (appendMessage idCipher toyScrypt "pw" ivB ⟨2, some "y"⟩
        (appendMessage idCipher toyScrypt "pw" ivA ⟨1, some "x"⟩ ⟨none, false⟩))
      = .ok ([] ++ [mkRecord ⟨1, some "x"⟩, mkRecord ⟨2, some "y"⟩]) :=
  C3_order_preservation idCipher toyScrypt "pw" ivA ivB ⟨none, false⟩ []
    ⟨1, some "x"⟩ ⟨2, some "y"⟩ idCipher_lawful (by decide) (by decide) (by decide)
    (by decide) (by decide) rfl rfl (by decide) (by decide)

/-- C8: two encryptions of the same plaintext under the same key with
distinct 16-byte IVs produce blobs with distinct IV segments — hence
distinct blobs — and both decrypt back to the plaintext. -/
theorem C8_iv_freshness (C : BlockCipher) (scrypt : String → String → Nat → List Nat)
    (ek : String) (iv1 iv2 : List Nat) (P b1 b2 : String) (hC : C.Lawful)
    (hkey : (getKey scrypt ek).length = 32)
    (hiv1 : iv1.length = 16) (hivb1 : ∀ x ∈ iv1, x < 256)
    (hiv2 : iv2.length = 16) (hivb2 : ∀ x ∈ iv2, x < 256) (hne : iv1 ≠ iv2)
    (hE1 : encrypt C scrypt ek iv1 P = .ok b1) (hE2 : encrypt C scrypt ek iv2 P = .ok b2) :
    ivSegment b1 ≠ ivSegment b2 ∧ b1 ≠ b2 ∧
    decrypt C scrypt ek b1 = .ok P ∧ decrypt C scrypt ek b2 = .ok P := by
  have hb1 : b1 = encBlob C scrypt ek iv1 P := by
    have h := encrypt_ok C scrypt ek iv1 P hkey hiv1
    rw [h] at hE1
    exact (Except.ok.inj hE1).symm
  have hb2 : b2 = encBlob C scrypt ek iv2 P := by
    have h := encrypt_ok C scrypt ek iv2 P hkey hiv2
    rw [h] at hE2
    exact (Except.ok.inj hE2).symm
  have hseg1 : ivSegment b1 = bytesToHexChars iv1 := by
    rw [hb1]; exact ivSegment_encBlob C scrypt ek iv1 P hC hiv1 hivb1
  have hseg2 : ivSegment b2 = bytesToHexChars iv2 := by
    rw [hb2]; exact ivSegment_encBlob C scrypt ek iv2 P hC hiv2 hivb2
  have hsegne : bytesToHexChars iv1 ≠ bytesToHexChars iv2 :=
    fun h => hne (bytesToHexChars_inj iv1 iv2 hivb1 hivb2 h)
  refine ⟨by rw [hseg1, hseg2]; exact hsegne, ?_,
    decrypt_encrypt C scrypt ek iv1 P b1 hC hkey hiv1 hivb1 hE1,
    decrypt_encrypt C scrypt ek iv2 P b2 hC hkey hiv2 hivb2 hE2⟩
  intro hbe
  apply hsegne
  rw [← hseg1, ← hseg2, hbe]

set_option maxRecDepth 1000000 in
/-- Witness for C8 on two concrete distinct IVs. -/
theorem C8_witness :
    ivSegment blobHiA ≠ ivSegment blobHiB ∧ blobHiA ≠ blobHiB ∧
    decrypt idCipher toyScrypt "pw" blobHiA = .ok "hi" ∧
    decrypt idCipher toyScrypt "pw" blobHiB = .ok "hi" :=
  C8_iv_freshness idCipher toyScrypt "pw" ivA ivB "hi" blobHiA blobHiB idCipher_lawful
    (by decide) (by decide) (by decide) (by decide) (by decide) (by decide)
    (by decide) (by decide)

/-- C9: every blob encrypt produces matches the on-disk grammar: a
32-character lowercase-hex IV segment, exactly one colon, and a non-empty
lowercase-hex ciphertext segment of even length, namely
32·(⌊byteLength(utf8(P))/16⌋+1) characters. -/
theorem C9_blob_grammar (C : BlockCipher) (scrypt : String → String → Nat → List Nat)
    (ek : String) (iv : List Nat) (P blob : String) (hC : C.Lawful)
    (hkey : (getKey scrypt ek).length = 32)
    (hiv : iv.length = 16) (hivb : ∀ x ∈ iv, x < 256)
    (hE : encrypt C scrypt ek iv P = .ok blob) :
    splitOnChar (Char.ofNat 58) blob.data = [ivSegment blob, ctSegment blob] ∧
    (ivSegment blob).length = 32 ∧
    (∀ c ∈ ivSegment blob, isLowerHex c = true) ∧
    ctSegment blob ≠ [] ∧
    (∀ c ∈ ctSegment blob, isLowerHex c = true) ∧
    (ctSegment blob).length % 2 = 0 ∧
    (ctSegment blob).length = 32 * ((utf8EncodeStr P).length / 16 + 1) ∧
    blob.data.count (Char.ofNat 58) = 1 := by
  have hb : blob = encBlob C scrypt ek iv P := by
    have h := encrypt_ok C scrypt ek iv P hkey hiv
    rw [h] at hE
    exact (Except.ok.inj hE).symm
  subst hb
  have hct256 := ctBytes_lt C scrypt ek iv P hC hiv hivb
  have hsplit := encBlob_split C scrypt ek iv P hC hiv hivb
  have hivseg : ivSegment (encBlob C scrypt ek iv P) = bytesToHexChars iv := by
    rw [ivSegment, hsplit]; rfl
  have hctseg : ctSegment (encBlob C scrypt ek iv P)
      = bytesToHexChars (cbcEncBlocks C (getKey scrypt ek) iv
        (toBlocks (padPKCS7 (utf8EncodeStr P)))).flatten := by
    rw [ctSegment, hsplit]; rfl
  have hctlen := ctFlattenLength C scrypt ek iv P hC hiv hivb
  have hctcharslen : (ctSegment (encBlob C scrypt ek iv P)).length
      = 2 * (16 * ((utf8EncodeStr P).length / 16 + 1)) := by
    rw [hctseg, bytesToHexChars_length, hctlen]
  refine ⟨?_, ?_, ?_, ?_, ?_, ?_, ?_, ?_⟩
  · rw [hivseg, hctseg]; exact hsplit
  · rw [hivseg, bytesToHexChars_length, hiv]
  · intro c hc
    rw [hivseg] at hc
    exact (mem_bytesToHexChars iv hivb c hc).1
  · intro hnil
    rw [hnil] at hctcharslen
    simp at hctcharslen
  · intro c hc
    rw [hctseg] at hc
    exact (mem_bytesToHexChars _ hct256 c hc).1
  · omega
  · omega
  · rw [encBlob_data, List.count_append, List.count_cons_self]
    have hz1 : (bytesToHexChars iv).count (Char.ofNat 58) = 0 :=
      List.count_eq_zero.2 (fun hmem => (mem_bytesToHexChars iv hivb _ hmem).2 rfl)
    have hz2 : (bytesToHexChars (cbcEncBlocks C (getKey scrypt ek) iv
        (toBlocks (padPKCS7 (utf8EncodeStr P)))).flatten).count (Char.ofNat 58) = 0 :=
      List.count_eq_zero.2 (fun hmem => (mem_bytesToHexChars _ hct256 _ hmem).2 rfl)
    rw [hz1, hz2]

set_option maxRecDepth 1000000 in
/-- Witness for C9 on a concrete blob. -/
theorem C9_witness :
    splitOnChar (Char.ofNat 58) blob42.data = [ivSegment blob42, ctSegment blob42] ∧
    (ivSegment blob42).length = 32 ∧
    (∀ c ∈ ivSegment blob42, isLowerHex c = true) ∧
    ctSegment blob42 ≠ [] ∧
    (∀ c ∈ ctSegment blob42, isLowerHex c = true) ∧
    (ctSegment blob42).length % 2 = 0 ∧
    (ctSegment blob42).length = 32 * ((utf8EncodeStr "42").length / 16 + 1) ∧
    blob42.data.count (Char.ofNat 58) = 1 :=
  C9_blob_grammar idCipher toyScrypt "pw" ivA "42" blob42 idCipher_lawful
    (by decide) (by decide) (by decide) (by decide)
